import Mathlib

/-!
# barista-bar: the metric-to-display functions of `main.go`

A shallow embedding of the pure functions of `src/main.go` (`truncate`, `hms`,
`formatMediaTime`, `mediaFormatFunc`, `scale`, `grey`, `netColor`, `vbar`, the
battery builder and the load-average output function) and the properties of
them that the specification states.

Modelling conventions.

* A Go `string` is a Lean `String`, that is a sequence of Unicode scalar values
  (well-formed UTF-8 text).  `[]rune(s)` is `s.data`, `string(rs)` is
  `String.mk rs`, and the Go builtin `len(s)` is the number of UTF-8 *bytes*,
  `s.utf8ByteSize`.
* A Go `int` is a Lean `Int`.  The product and the quotient of `scale` and
  `vbar` wrap around at 64 bits (`goMul`, `goDiv`); the other arithmetic
  (budgets of `truncate`, deciles, time components) cannot leave the 64-bit
  range for the operands the functions receive.
* A run-time failure of the Go program ("slice bounds out of range", "integer
  divide by zero") is the `fail` result of `Result`.
* `time.Duration` is an `Int` count of nanoseconds.  `Duration.Hours`, `Minutes`
  and `Seconds` return a `float64`; a finite `float64` is the integer `x * 2^1074`
  (every finite double is a multiple of `2^-1074`), and conversion, division and
  addition round to the nearest double, ties to even (`roundToF64`).
-/

set_option exponentiation.threshold 5000

namespace Barista

/-! ## Results of fallible Go code -/

/-- Run-time failures the modelled code can raise. -/
inductive GoPanic where
  /-- Go reports "slice bounds out of range". -/
  | sliceBounds
  /-- Go reports "integer divide by zero". -/
  | divideByZero
  deriving DecidableEq, Repr

/-- The outcome of running a Go function: a value, or a run-time failure. -/
inductive Result (α : Type) where
  | ok (a : α)
  | fail (e : GoPanic)
  deriving DecidableEq, Repr

/-- Sequencing of fallible computations. -/
def Result.bind {α β : Type} (r : Result α) (f : α → Result β) : Result β :=
  match r with
  | .ok a => f a
  | .fail e => .fail e

/-! ## Strings -/

/-- Go `[]rune(s)`: the code points of `s`. -/
def runes (s : String) : List Char := s.data

/-- Go `len(s)` on a string: its length in bytes. -/
def len (s : String) : Int := (s.utf8ByteSize : Int)

/-- Rune count of a string, `len([]rune(s))`. -/
def runeLen (s : String) : Int := ((runes s).length : Int)

/-- Go slice expression `xs[:hi]`: it needs `0 ≤ hi ≤ cap(xs)` and fails with a
run-time error otherwise.  The capacity of a freshly converted `[]rune` is at
least its length; at the only use (`truncate`) `hi` is below the length, so
the length is taken as the upper bound. -/
def sliceTo {α : Type} (xs : List α) (hi : Int) : Result (List α) :=
  if 0 ≤ hi ∧ hi ≤ (xs.length : Int) then .ok (xs.take hi.toNat) else .fail .sliceBounds

/-- The ellipsis marker appended by `truncate`, the single rune U+22EF. -/
def ellipsis : String := "⋯"

/-- Source `truncate` (main.go 30-35):
```go
func truncate(in string, l int) string {
	if len([]rune(in)) <= l {
		return in
	}
	return string([]rune(in)[:l-1]) + "⋯"
}
``` -/
def truncate (s : String) (l : Int) : Result String :=
  if runeLen s ≤ l then .ok s
  else (sliceTo (runes s) (l - 1)).bind fun r => .ok (String.mk r ++ ellipsis)

/-! ## Durations and their rendering -/

/-- Go `time.Duration`: a count of nanoseconds. -/
abbrev Duration := Int

/-- Go `time.Second`, in nanoseconds. -/
def Second : Int := 1000000000

/-- Go `time.Minute`, in nanoseconds. -/
def Minute : Int := 60 * Second

/-- Go `time.Hour`, in nanoseconds. -/
def Hour : Int := 60 * Minute

/-! ### `float64` arithmetic

The values are non-negative integers scaled by `2^1074`; the sign is carried
by the `Int` wrappers below.  Overflow to infinity is not modelled (no value
derived from a 64-bit duration comes near `2^1024`). -/

/-- The scale `2^1074`: a finite `float64` `x` is the integer `x * f64Scale`. -/
def f64Scale : Nat := 2 ^ 1074

/-- Binary search for the largest `j` below `2^i` above `acc` with `2^j * q ≤ p`. -/
def log2Aux (p q : Nat) : Nat → Nat → Nat
  | 0, acc => acc
  | i + 1, acc =>
    if 2 ^ (acc + 2 ^ i) * q ≤ p then log2Aux p q i (acc + 2 ^ i) else log2Aux p q i acc

/-- The exponent `j` of the unit in the last place of the double nearest to
`p / q`, on the scale: `2^j = ulp * 2^1074`.  For a normal value in the binade
`[2^e, 2^(e+1))` it is `e + 1022`, the floor of `log2 (p * 2^1022 / q)`; for a
subnormal value it is `0`. -/
def ulpExp (p q : Nat) : Nat := log2Aux (p * 2 ^ 1022) q 12 0

/-- The multiple of `u` nearest to `x`; a tie goes to the even multiple. -/
def roundToMultiple (u x : Nat) : Nat :=
  if 2 * (x % u) < u then x / u * u
  else if u < 2 * (x % u) then (x / u + 1) * u
  else if x / u % 2 = 0 then x / u * u else (x / u + 1) * u

/-- The `float64` nearest to the rational `p / q` (round to nearest, ties to
even), on the scale. -/
def roundToF64 (p q : Nat) : Nat := roundToMultiple (q * 2 ^ ulpExp p q) (p * f64Scale) / q

/-- The `float64` nearest to the signed rational `p / q`. -/
def f64OfRat (p : Int) (q : Nat) : Int :=
  if p < 0 then -(roundToF64 p.natAbs q : Int) else (roundToF64 p.natAbs q : Int)

/-- Go `float64(n)` for an integer `n`. -/
def f64OfInt (n : Int) : Int := f64OfRat n 1

/-- Go `x + y` on `float64`. -/
def f64Add (x y : Int) : Int := f64OfRat (x + y) f64Scale

/-- Go `x / y` on `float64`, for a divisor that is not zero. -/
def f64Div (x y : Int) : Int := f64OfRat (if y < 0 then -x else x) y.natAbs

/-- Go `int(x)` for a `float64` `x`: the fraction is dropped (truncation toward
zero). -/
def f64ToInt (x : Int) : Int := Int.tdiv x f64Scale

/-- The library methods `Duration.Hours`, `Minutes` and `Seconds` of package
`time`, for the unit `Hour`, `Minute`, `Second`; Go `/` and `%` on the duration
truncate toward zero, and the divisor constant is the unit as a `float64`:
```go
func (d Duration) Hours() float64 {
	hour := d / Hour
	nsec := d % Hour
	return float64(hour) + float64(nsec)/(60*60*1e9)
}
``` -/
def durationFloat (unit d : Int) : Int :=
  f64Add (f64OfInt (Int.tdiv d unit)) (f64Div (f64OfInt (Int.tmod d unit)) (f64OfInt unit))

/-- Go `int(d.Hours())`. -/
def intHours (d : Duration) : Int := f64ToInt (durationFloat Hour d)

/-- Go `int(d.Minutes())`. -/
def intMinutes (d : Duration) : Int := f64ToInt (durationFloat Minute d)

/-- Go `int(d.Seconds())`. -/
def intSeconds (d : Duration) : Int := f64ToInt (durationFloat Second d)

/-- Source `hms` (main.go 37-42); Go `%` is the truncated remainder:
```go
func hms(d time.Duration) (h int, m int, s int) {
	h = int(d.Hours())
	m = int(d.Minutes()) % 60
	s = int(d.Seconds()) % 60
	return
}
``` -/
def hms (d : Duration) : Int × Int × Int :=
  (intHours d, Int.tmod (intMinutes d) 60, Int.tmod (intSeconds d) 60)

/-- Left padding of a digit string with `0` up to width `w`. -/
def zeroPad (w : Nat) (ds : String) : String :=
  String.mk (List.replicate (w - ds.length) '0') ++ ds

/-- Go verb `%d`: an optional minus sign and the decimal digits. -/
def fmtD (n : Int) : String :=
  if n < 0 then "-" ++ Nat.repr n.natAbs else Nat.repr n.natAbs

/-- Go verb `%02d`: zero padding to width 2, where a minus sign takes one of the
two columns (`fmt` lowers the digit count by one to leave room for the sign). -/
def fmtD02 (n : Int) : String :=
  if n < 0 then "-" ++ zeroPad 1 (Nat.repr n.natAbs) else zeroPad 2 (Nat.repr n.natAbs)

/-- Source `formatMediaTime` (main.go 44-50):
```go
func formatMediaTime(d time.Duration) string {
	h, m, s := hms(d)
	if h > 0 {
		return fmt.Sprintf("%d:%02d:%02d", h, m, s)
	}
	return fmt.Sprintf("%d:%02d", m, s)
}
``` -/
def formatMediaTime (d : Duration) : String :=
  match hms d with
  | (h, m, s) =>
    if h > 0 then fmtD h ++ ":" ++ fmtD02 m ++ ":" ++ fmtD02 s
    else fmtD m ++ ":" ++ fmtD02 s

/-- The specification's rendering of a number below 100 on exactly two decimal
digits. -/
def twoDigits (n : Nat) : String :=
  String.mk [Nat.digitChar (n / 10), Nat.digitChar (n % 10)]

/-- The whole seconds of a non-negative duration (the fraction is dropped). -/
def wholeSeconds (d : Duration) : Nat := (d / 1000000000).toNat

/-- The specification's rendering of `t` whole seconds, with `h = t / 3600`,
`m = (t / 60) mod 60` and `s = t mod 60`: `H:MM:SS` when `h > 0`, else `M:SS`
with the minutes not padded. -/
def formatElapsedSpec (t : Nat) : String :=
  if 0 < t / 3600 then Nat.repr (t / 3600) ++ ":" ++ twoDigits (t / 60 % 60) ++ ":" ++ twoDigits (t % 60)
  else Nat.repr (t / 60 % 60) ++ ":" ++ twoDigits (t % 60)

/-! ## The media segment -/

/-- The playback states of `barista.run/modules/media` (a type of the imported
library; the four states are the ones the specification's data model lists). -/
inductive PlaybackStatus where
  | Disconnected
  | Playing
  | Paused
  | Stopped
  deriving DecidableEq, Repr

/-- The fields of `media.Info` that `mediaFormatFunc` reads.  `Position` stands for
the value returned by the method call `m.Position()`. -/
structure Info where
  PlaybackStatus : PlaybackStatus
  Artist : String
  Title : String
  Length : Duration
  Position : Duration
  deriving DecidableEq, Repr

/-- What `mediaFormatFunc` hands to `outputs.Pango`, in the order of the call: the
icon `fa-music` with its colour, the `position/length` text appended to the icon
when playing, then the title, the separator and the artist (the two interleaved
`spacer` nodes are constant and left out). -/
structure MediaOutput where
  icon : String
  iconColor : String
  times : Option String
  title : String
  separator : String
  artist : String
  deriving DecidableEq, Repr

/-- Source `mediaFormatFunc` (main.go 52-70).  The result `none` is Go `nil`.
```go
	if m.PlaybackStatus == media.Stopped || m.PlaybackStatus == media.Disconnected {
		return nil
	}
	artist := truncate(m.Artist, 20)
	title := truncate(m.Title, 40-len(artist))
	if len(title) < 20 {
		artist = truncate(m.Artist, 40-len(title))
	}
	iconAndPosition := pango.Icon("fa-music").Color(colors.Hex("#f70"))
	if m.PlaybackStatus == media.Playing {
		iconAndPosition.Append(spacer, pango.Textf("%s/%s",
			formatMediaTime(m.Position()), formatMediaTime(m.Length)))
	}
	return outputs.Pango(iconAndPosition, spacer, title, " - ", artist)
``` -/
def mediaFormatFunc (m : Info) : Result (Option MediaOutput) :=
  if m.PlaybackStatus = .Stopped ∨ m.PlaybackStatus = .Disconnected then .ok none
  else
    (truncate m.Artist 20).bind fun artist =>
    (truncate m.Title (40 - len artist)).bind fun title =>
    (if len title < 20 then truncate m.Artist (40 - len title) else .ok artist).bind fun artist =>
    .ok (some (MediaOutput.mk "fa-music" "#f70"
      (if m.PlaybackStatus = .Playing then
        some (formatMediaTime m.Position ++ "/" ++ formatMediaTime m.Length)
       else none)
      title " - " artist))

/-! ## Machine integers -/

/-- The value a 64-bit Go `int` holds after an arithmetic result `x` wraps around
(two's complement). -/
def wrapInt64 (x : Int) : Int := (x + 2 ^ 63) % 2 ^ 64 - 2 ^ 63

/-- The value a Go `rune` (`int32`) holds after the conversion `rune(x)`. -/
def wrapInt32 (x : Int) : Int := (x + 2 ^ 31) % 2 ^ 32 - 2 ^ 31

/-- Go `x * y` on `int`. -/
def goMul (x y : Int) : Int := wrapInt64 (x * y)

/-- Go `x / y` on `int`: the quotient truncated toward zero; a zero divisor is a
run-time failure. -/
def goDiv (x y : Int) : Result Int :=
  if y = 0 then .fail .divideByZero else .ok (wrapInt64 (Int.tdiv x y))

/-- Go `string(r)` for a rune `r`: the UTF-8 text of the code point, and U+FFFD
for a value that is not a valid code point. -/
def stringOfRune (r : Int) : String :=
  if (0 ≤ r ∧ r < 0xD800) ∨ (0xE000 ≤ r ∧ r ≤ 0x10FFFF) then String.singleton (Char.ofNat r.toNat)
  else String.singleton (Char.ofNat 0xFFFD)

/-! ## The continuous colour scaler -/

/-- Source `scale` (main.go 245-253):
```go
func scale(v, vmax, intervals int) int {
	if v > vmax {
		v = vmax
	}
	if v < 0 {
		v = 0
	}
	return v * intervals / vmax
}
``` -/
def scale (v vmax intervals : Int) : Result Int :=
  let v := if v > vmax then vmax else v
  let v := if v < 0 then 0 else v
  goDiv (goMul v intervals) vmax

/-- Go verb `%02x`: lowercase hexadecimal digits, zero padded to width 2 (a minus
sign takes one of the two columns). -/
def fmtX02 (n : Int) : String :=
  if n < 0 then "-" ++ zeroPad 1 (String.mk (Nat.toDigits 16 n.natAbs))
  else zeroPad 2 (String.mk (Nat.toDigits 16 n.natAbs))

/-- Source `grey` (main.go 234-243); the result is the text handed to
`colors.Hex`:
```go
func grey(n int) colors.ColorfulColor {
	if n < 0 {
		n = 0
	}
	if n > 255 {
		n = 255
	}
	h := fmt.Sprintf("%02x", n)
	return colors.Hex("#" + h + h + h)
}
``` -/
def grey (n : Int) : String :=
  let n := if n < 0 then 0 else n
  let n := if n > 255 then 255 else n
  let h := fmtX02 n
  "#" ++ h ++ h ++ h

/-- Source `netColor` (main.go 229-232); `bytes` is the value of
`int(speed.BytesPerSecond())`, the whole bytes per second of the throughput.
The sum `+ 55` is exact: a quotient of `scale` with 200 intervals is at most 200
in absolute value.
```go
func netColor(speed unit.Datarate, maxBytes int) colors.ColorfulColor {
	bytes := int(speed.BytesPerSecond())
	return grey(scale(bytes, maxBytes, 200) + 55)
}
``` -/
def netColor (bytes maxBytes : Int) : Result String :=
  (scale bytes maxBytes 200).bind fun i => .ok (grey (i + 55))

/-- Source constant `vbarMinChar`. -/
def vbarMinChar : Int := 0x2580

/-- Source constant `numVBars`. -/
def numVBars : Int := 8

/-- Source `vbar` (main.go 259-271):
```go
func vbar(v, max int) string {
	if v > max {
		v = max
	}
	if v < 0 {
		v = 0
	}
	i := v * numVBars / max
	if i == 0 {
		return ""
	}
	return string(rune(vbarMinChar + i))
}
``` -/
def vbar (v max : Int) : Result String :=
  let v := if v > max then max else v
  let v := if v < 0 then 0 else v
  (goDiv (goMul v numVBars) max).bind fun i =>
    if i = 0 then .ok "" else .ok (stringOfRune (wrapInt32 (vbarMinChar + i)))

/-- The specification's clamp of `x` to `[lo, hi]`. -/
def clampSpec (x lo hi : Int) : Int := max lo (min x hi)

/-- The specification's scaler: clamp the value to `[0, vmax]`, then
`floor(value * steps / vmax)`. -/
def scaleSpec (v vmax steps : Int) : Int := clampSpec v 0 vmax * steps / vmax

/-- The specification's grey byte for a throughput of `b` bytes per second against
the reference ceiling 100000: `clamp(scale(b, 100000, 200) + 55, 0, 255)`. -/
def intensitySpec (b : Int) : Int := clampSpec (scaleSpec b 100000 200 + 55) 0 255

/-- The specification's rendering of a byte on two lowercase hexadecimal digits. -/
def twoHex (n : Nat) : String :=
  String.mk [Nat.digitChar (n / 16), Nat.digitChar (n % 16)]

/-! ## The battery segment -/

/-- Modelled from the spec: the battery states of `barista.run/modules/battery`
(a type of the imported library), the three the data model lists. -/
inductive Status where
  | Disconnected
  | Charging
  | Discharging
  deriving DecidableEq, Repr

/-- The parts of `battery.Info` the builder reads.  `RemainingPct` stands for the
value returned by the method call `i.RemainingPct()`. -/
structure BatteryInfo where
  Status : Status
  RemainingPct : Int
  deriving DecidableEq, Repr

/-- The segment built for a battery: the icon name handed to `pango.Icon`, the
text node `disp`, the urgency flag set by `out.Urgent(true)` and the scheme
colour name set by `out.Color(colors.Scheme(..))`. -/
structure BattSegment where
  icon : String
  text : String
  urgent : Bool
  color : Option String
  deriving DecidableEq, Repr

/-- Source `buildBattOutput` (main.go 101-126); `none` is Go `nil`, and Go `/` on
`int` truncates toward zero:
```go
	buildBattOutput := func(i battery.Info, disp *pango.Node) *bar.Segment {
		if i.Status == battery.Disconnected {
			return nil
		}
		iconName := "battery"
		if i.Status == battery.Charging {
			iconName += "-charging"
		}
		tenth := i.RemainingPct() / 10
		switch {
		case tenth == 0:
			iconName += "-outline"
		case tenth < 10:
			iconName += fmt.Sprintf("-%d0", tenth)
		}
		out := outputs.Pango(pango.Icon("mdi-"+iconName), spacer, disp)
		switch {
		case i.RemainingPct() <= 5:
			out.Urgent(true)
		case i.RemainingPct() <= 15:
			out.Color(colors.Scheme("bad"))
		case i.RemainingPct() <= 25:
			out.Color(colors.Scheme("degraded"))
		}
		return out
	}
``` -/
def buildBattOutput (i : BatteryInfo) (disp : String) : Option BattSegment :=
  if i.Status = .Disconnected then none
  else
    let iconName := "battery"
    let iconName := if i.Status = .Charging then iconName ++ "-charging" else iconName
    let tenth := Int.tdiv i.RemainingPct 10
    let iconName :=
      if tenth = 0 then iconName ++ "-outline"
      else if tenth < 10 then iconName ++ ("-" ++ fmtD tenth ++ "0")
      else iconName
    let out := BattSegment.mk ("mdi-" ++ iconName) disp false none
    if i.RemainingPct ≤ 5 then some (BattSegment.mk out.icon out.text true out.color)
    else if i.RemainingPct ≤ 15 then some (BattSegment.mk out.icon out.text out.urgent (some "bad"))
    else if i.RemainingPct ≤ 25 then
      some (BattSegment.mk out.icon out.text out.urgent (some "degraded"))
    else some out

/-- Source `showBattPct` (main.go 128-134):
```go
	showBattPct := func(i battery.Info) bar.Output {
		out := buildBattOutput(i, pango.Textf("%d%%", i.RemainingPct()))
		if out == nil {
			return nil
		}
		return out
	}
``` -/
def showBattPct (i : BatteryInfo) : Option BattSegment :=
  match buildBattOutput i (fmtD i.RemainingPct ++ "%") with
  | none => none
  | some out => some out

/-- The specification's icon suffix for a remaining percentage `p`: the outline
at decile `p div 10 = 0`, the numbered tier `-N0` for a decile `N` in `1..9`, and
nothing (the full icon) otherwise. -/
def iconSuffixSpec (p : Int) : String :=
  if p / 10 = 0 then "-outline"
  else if 1 ≤ p / 10 ∧ p / 10 ≤ 9 then String.mk ['-', Nat.digitChar (p / 10).toNat, '0']
  else ""

/-! ## The load-average segment -/

/-- The parts of `sysinfo.Info` the load-average function reads: `Loads`, the
array of the 1-, 5- and 15-minute load averages (`Loads[1]` is its middle
component), and `Uptime`.  A `float64` load is taken as the rational number it
denotes; the code only compares it with 8, 4 and 1. -/
structure SysInfo where
  Loads : ℚ × ℚ × ℚ
  Uptime : Duration
  deriving DecidableEq

/-- Source `startTaskManager` (main.go 72), `click.RunLeft("gnome-system-monitor")`,
identified by its command. -/
def startTaskManager : String := "gnome-system-monitor"

/-- The segment built for the load average: the icon and its colour, the load
shown by the text node (rendered with `%0.2f`), the urgency flag, the scheme
colour name and the click handler. -/
structure LoadSegment where
  icon : String
  iconColor : String
  load : ℚ
  urgent : Bool
  color : Option String
  onClick : Option String
  deriving DecidableEq

/-- Source: the output function of `loadAvg` (main.go 138-162):
```go
	loadAvg := sysinfo.New().Output(func(s sysinfo.Info) bar.Output {
		load5Min := s.Loads[1]
		out := outputs.Pango(
			pango.Icon("mdi-heart-pulse").Color(colors.Scheme("dim-icon")),
			spacer,
			pango.Textf("%0.2f", load5Min),
		)
		// Load averages are unusually high for a few minutes after boot.
		if s.Uptime < 10*time.Minute {
			// so don't add colours until 10 minutes after system start.
			return out
		}
		switch {
		case load5Min > 8:
			out.Urgent(true)
		case load5Min > 4:
			out.Color(colors.Scheme("bad"))
		case load5Min > 1:
			out.Color(colors.Scheme("degraded"))
		}
		out.OnClick(startTaskManager)
		return out
	})
``` -/
def loadAvg (s : SysInfo) : LoadSegment :=
  let load5Min := s.Loads.2.1
  let out := LoadSegment.mk "mdi-heart-pulse" "dim-icon" load5Min false none none
  if s.Uptime < 10 * Minute then out
  else
    let out :=
      if load5Min > 8 then LoadSegment.mk out.icon out.iconColor out.load true out.color out.onClick
      else if load5Min > 4 then
        LoadSegment.mk out.icon out.iconColor out.load out.urgent (some "bad") out.onClick
      else if load5Min > 1 then
        LoadSegment.mk out.icon out.iconColor out.load out.urgent (some "degraded") out.onClick
      else out
    LoadSegment.mk out.icon out.iconColor out.load out.urgent out.color (some startTaskManager)

/-- ASCII text: every rune is below 128. -/
def isASCII (s : String) : Bool := (runes s).all fun c => decide (c.toNat < 128)

/-! ## Properties of `truncate` -/

theorem runes_ellipsis : runes ellipsis = [Char.ofNat 0x22EF] := by decide

theorem runes_mk_append (r : List Char) (t : String) :
    runes (String.mk r ++ t) = r ++ runes t := by
  simp [runes, String.data_append]

/-- The two branches of `truncate` for a positive budget. -/
theorem truncate_of_pos (s : String) (n : Int) (hn : 1 ≤ n) :
    truncate s n =
      if runeLen s ≤ n then .ok s
      else .ok (String.mk ((runes s).take (n - 1).toNat) ++ ellipsis) := by
  unfold truncate
  by_cases h : runeLen s ≤ n
  · simp [h]
  · have hb : 0 ≤ n - 1 ∧ n - 1 ≤ ((runes s).length : Int) := by
      unfold runeLen at h
      omega
    simp [h, sliceTo, hb, Result.bind]

/-- Rune count of the result on the shortening branch. -/
theorem runeLen_truncated (s : String) (n : Int) (hn : 1 ≤ n) (h : n < runeLen s) :
    runeLen (String.mk ((runes s).take (n - 1).toNat) ++ ellipsis) = n := by
  unfold runeLen at *
  rw [runes_mk_append, runes_ellipsis]
  simp only [List.length_append, List.length_take, List.length_singleton]
  omega

/-- With a positive budget `truncate` returns, and the result fits the budget. -/
theorem truncate_ok_le (s : String) (n : Int) (hn : 1 ≤ n) :
    ∃ r, truncate s n = .ok r ∧ runeLen r ≤ n := by
  rw [truncate_of_pos s n hn]
  by_cases h : runeLen s ≤ n
  · exact ⟨s, by rw [if_pos h], h⟩
  · refine ⟨_, by rw [if_neg h], ?_⟩
    rw [runeLen_truncated s n hn (by omega)]

/-- C1: for every string `s` and every budget `n ≥ 1`, `truncate s n` returns a
string whose rune count is at most `n`. -/
theorem truncate_rune_bound (s : String) (n : Int) (hn : 1 ≤ n) :
    ∃ r, truncate s n = .ok r ∧ runeLen r ≤ n := by
  rw [truncate_of_pos s n hn]
  by_cases h : runeLen s ≤ n
  · exact ⟨s, if_pos h, h⟩
  · have hlt : n < runeLen s := by omega
    exact ⟨_, if_neg h, le_of_eq (runeLen_truncated s n hn hlt)⟩

theorem truncate_rune_bound_witness :
    (1 : Int) ≤ 3 ∧ ∃ r, truncate "αβγδε" 3 = .ok r ∧ runeLen r ≤ 3 :=
  ⟨by decide, truncate_rune_bound "αβγδε" 3 (by decide)⟩

/-- C2: for every string `s` and budget `n ≥ 1`: when `s` has at most `n` runes
the result is `s` itself; otherwise the result is made of whole runes, namely
the first `n - 1` runes of `s` (exactly `n - 1` of them) followed by the single
rune U+22EF. -/
theorem truncate_spec (s : String) (n : Int) (hn : 1 ≤ n) :
    (runeLen s ≤ n → truncate s n = .ok s) ∧
    (n < runeLen s → ∃ r, truncate s n = .ok r ∧
        runes r = (runes s).take (n - 1).toNat ++ [Char.ofNat 0x22EF] ∧
        (((runes s).take (n - 1).toNat).length : Int) = n - 1) := by
  rw [truncate_of_pos s n hn]
  refine ⟨fun h => by rw [if_pos h], fun h => ?_⟩
  have h' : ¬ runeLen s ≤ n := by omega
  refine ⟨_, by rw [if_neg h'], ?_, ?_⟩
  · rw [runes_mk_append, runes_ellipsis]
  · unfold runeLen at h
    simp only [List.length_take]
    omega

theorem truncate_spec_witness :
    (1 : Int) ≤ 3 ∧
    ((runeLen "αβγδε" ≤ 3 → truncate "αβγδε" 3 = .ok "αβγδε") ∧
     (3 < runeLen "αβγδε" → ∃ r, truncate "αβγδε" 3 = .ok r ∧
        runes r = (runes "αβγδε").take ((3 : Int) - 1).toNat ++ [Char.ofNat 0x22EF] ∧
        (((runes "αβγδε").take ((3 : Int) - 1).toNat).length : Int) = 3 - 1)) :=
  ⟨by decide, truncate_spec "αβγδε" 3 (by decide)⟩

/-- C3: `truncate` is idempotent for a fixed budget `n ≥ 1`: the first call
returns some `r`, and truncating `r` again to `n` returns `r` unchanged. -/
theorem truncate_idempotent (s : String) (n : Int) (hn : 1 ≤ n) :
    ∃ r, truncate s n = .ok r ∧ truncate r n = .ok r ∧
      (truncate s n).bind (fun t => truncate t n) = truncate s n := by
  obtain ⟨r, hr, hlen⟩ := truncate_ok_le s n hn
  have h2 : truncate r n = .ok r := by
    rw [truncate_of_pos r n hn]
    simp [hlen]
  exact ⟨r, hr, h2, by rw [hr]; simpa [Result.bind] using h2⟩

theorem truncate_idempotent_witness :
    (1 : Int) ≤ 3 ∧ ∃ r, truncate "αβγδε" 3 = .ok r ∧ truncate r 3 = .ok r ∧
      (truncate "αβγδε" 3).bind (fun t => truncate t 3) = truncate "αβγδε" 3 :=
  ⟨by decide, truncate_idempotent "αβγδε" 3 (by decide)⟩

/-- C4: with a budget `n ≤ 0` the code does not return normally in general:
`truncate "a" 0` and `truncate "" (-1)` fail on the slice `[:l-1]`, whose upper
bound is negative; for a budget `-k ≤ 0` the only call that returns is the one
on the empty string with budget `0`. -/
theorem truncate_nonpositive_budget :
    truncate "a" 0 = .fail .sliceBounds ∧
    truncate "" (-1) = .fail .sliceBounds ∧
    ∀ (s : String) (k : Nat), truncate s (-(k : Int)) =
      if runes s = [] ∧ k = 0 then .ok s else .fail .sliceBounds := by
  refine ⟨by decide, by decide, fun s k => ?_⟩
  unfold truncate runeLen
  by_cases h : runes s = [] ∧ k = 0
  · obtain ⟨h1, h2⟩ := h
    simp [h1, h2]
  · have h1 : ¬ (((runes s).length : Int) ≤ -(k : Int)) := by
      intro hle
      apply h
      have : (runes s).length = 0 := by omega
      exact ⟨List.length_eq_zero.mp this, by omega⟩
    have h2 : ¬ (0 ≤ -(k : Int) - 1 ∧ -(k : Int) - 1 ≤ ((runes s).length : Int)) := by omega
    rw [if_neg h1, if_neg h]
    unfold sliceTo
    rw [if_neg h2]
    rfl

/-! ## Properties of the `float64` rounding -/

theorem log2Aux_le_of_lt (p q J : Nat) (hp : p < 2 ^ (J + 1) * q) :
    ∀ i acc, acc ≤ J → log2Aux p q i acc ≤ J := by
  intro i
  induction i with
  | zero => intro acc h; exact h
  | succ i ih =>
    intro acc h
    unfold log2Aux
    by_cases ht : 2 ^ (acc + 2 ^ i) * q ≤ p
    · rw [if_pos ht]
      apply ih
      have hq : 0 < q := by
        rcases Nat.eq_zero_or_pos q with h0 | h0
        · rw [h0] at hp; simp at hp
        · exact h0
      have hlt : 2 ^ (acc + 2 ^ i) * q < 2 ^ (J + 1) * q := lt_of_le_of_lt ht hp
      have hlt2 : 2 ^ (acc + 2 ^ i) < 2 ^ (J + 1) := lt_of_mul_lt_mul_right hlt (Nat.zero_le q)
      have := (Nat.pow_lt_pow_iff_right (by decide : 1 < 2)).mp hlt2
      omega
    · rw [if_neg ht]
      exact ih acc h

theorem log2Aux_spec (p q : Nat) :
    ∀ i acc, 2 ^ acc * q ≤ p → p < 2 ^ (acc + 2 ^ i) * q →
      2 ^ log2Aux p q i acc * q ≤ p ∧ p < 2 ^ (log2Aux p q i acc + 1) * q := by
  intro i
  induction i with
  | zero =>
    intro acc h1 h2
    exact ⟨h1, h2⟩
  | succ i ih =>
    intro acc h1 h2
    unfold log2Aux
    by_cases ht : 2 ^ (acc + 2 ^ i) * q ≤ p
    · rw [if_pos ht]
      apply ih _ ht
      have : acc + 2 ^ i + 2 ^ i = acc + 2 ^ (i + 1) := by rw [pow_succ]; omega
      rw [this]
      exact h2
    · rw [if_neg ht]
      exact ih acc h1 (not_le.mp ht)

theorem roundToMultiple_cases (u x : Nat) :
    (roundToMultiple u x = x / u * u ∧ 2 * (x % u) ≤ u) ∨
    (roundToMultiple u x = (x / u + 1) * u ∧ u ≤ 2 * (x % u)) := by
  unfold roundToMultiple
  by_cases h1 : 2 * (x % u) < u
  · rw [if_pos h1]
    exact Or.inl ⟨rfl, le_of_lt h1⟩
  · rw [if_neg h1]
    by_cases h2 : u < 2 * (x % u)
    · rw [if_pos h2]
      exact Or.inr ⟨rfl, le_of_lt h2⟩
    · rw [if_neg h2]
      have he : u = 2 * (x % u) := by omega
      by_cases h3 : x / u % 2 = 0
      · rw [if_pos h3]
        exact Or.inl ⟨rfl, by omega⟩
      · rw [if_neg h3]
        exact Or.inr ⟨rfl, by omega⟩

theorem roundToMultiple_of_dvd (u x : Nat) (hu : 0 < u) (h : u ∣ x) : roundToMultiple u x = x := by
  have hr : x % u = 0 := Nat.mod_eq_zero_of_dvd h
  unfold roundToMultiple
  rw [hr, if_pos (by omega)]
  exact Nat.div_mul_cancel h

theorem roundToMultiple_scale (c u x : Nat) (hc : 0 < c) :
    roundToMultiple (c * u) (c * x) = c * roundToMultiple u x := by
  unfold roundToMultiple
  rw [Nat.mul_mod_mul_left, Nat.mul_div_mul_left _ _ hc]
  have e1 : (2 * (c * (x % u)) < c * u) ↔ (2 * (x % u) < u) := by
    rw [show 2 * (c * (x % u)) = c * (2 * (x % u)) by ring]
    exact Nat.mul_lt_mul_left hc
  have e2 : (c * u < 2 * (c * (x % u))) ↔ (u < 2 * (x % u)) := by
    rw [show 2 * (c * (x % u)) = c * (2 * (x % u)) by ring]
    exact Nat.mul_lt_mul_left hc
  simp only [e1, e2]
  split_ifs <;> ring

theorem roundToMultiple_ge (u a x : Nat) (hu : 0 < u) (ha : u ∣ a) (hax : a ≤ x) :
    a ≤ roundToMultiple u x := by
  obtain ⟨k, rfl⟩ := ha
  have hk : k ≤ x / u := (Nat.le_div_iff_mul_le hu).mpr (by rw [mul_comm]; exact hax)
  have hlow : u * k ≤ x / u * u := by
    rw [mul_comm u k]
    exact Nat.mul_le_mul_right u hk
  rcases roundToMultiple_cases u x with ⟨h, -⟩ | ⟨h, -⟩
  · rw [h]; exact hlow
  · rw [h]
    exact le_trans hlow (Nat.mul_le_mul_right u (Nat.le_succ _))

theorem roundToMultiple_lt (u b x : Nat) (hu : 0 < u) (hb : u ∣ b) (hgap : 2 * x + u < 2 * b) :
    roundToMultiple u x < b := by
  obtain ⟨k, rfl⟩ := hb
  have hdm : u * (x / u) + x % u = x := Nat.div_add_mod x u
  have hxk : x / u < k := by
    rw [Nat.div_lt_iff_lt_mul hu, mul_comm]
    omega
  have h1 : (x / u + 1) * u ≤ u * k := by
    rw [mul_comm u k]
    exact Nat.mul_le_mul_right u hxk
  rcases roundToMultiple_cases u x with ⟨h, -⟩ | ⟨h, hr⟩
  · rw [h]
    have : x / u * u < (x / u + 1) * u := by
      rw [Nat.add_mul]; omega
    omega
  · rw [h]
    rcases Nat.lt_or_ge ((x / u + 1) * u) (u * k) with h2 | h2
    · exact h2
    · exfalso
      have h3 : (x / u + 1) * u = u * k := le_antisymm h1 h2
      have h4 : (x / u + 1) * u = u * (x / u) + u := by ring
      omega

theorem roundToMultiple_le (u x : Nat) (hu : 0 < u) : 2 * roundToMultiple u x ≤ 2 * x + u := by
  have hdm : u * (x / u) + x % u = x := Nat.div_add_mod x u
  have hmod : x % u < u := Nat.mod_lt x hu
  rcases roundToMultiple_cases u x with ⟨h, -⟩ | ⟨h, hr⟩
  · rw [h]
    have : x / u * u = u * (x / u) := mul_comm _ _
    omega
  · rw [h]
    have : (x / u + 1) * u = u * (x / u) + u := by ring
    omega

theorem roundToMultiple_dvd (u x : Nat) : u ∣ roundToMultiple u x := by
  rcases roundToMultiple_cases u x with ⟨h, -⟩ | ⟨h, -⟩ <;> rw [h] <;> exact Dvd.intro_left _ rfl

/-- The exponent found by `ulpExp` is the floor of the binary logarithm of
`p * 2^1022 / q` for every value from `2^-1022` up (the normal range). -/
theorem ulpExp_spec (p q : Nat) (h1 : q ≤ p * 2 ^ 1022) (h2 : p * 2 ^ 1022 < 2 ^ 4096 * q) :
    2 ^ ulpExp p q * q ≤ p * 2 ^ 1022 ∧ p * 2 ^ 1022 < 2 ^ (ulpExp p q + 1) * q := by
  unfold ulpExp
  apply log2Aux_spec
  · rw [pow_zero, one_mul]
    exact h1
  · have e : 0 + 2 ^ 12 = 4096 := by norm_num
    rw [e]
    exact h2

theorem f64Scale_pos : 0 < f64Scale := by
  unfold f64Scale
  positivity

theorem ulpExp_le (p q J : Nat) (h : p * 2 ^ 1022 < 2 ^ (J + 1) * q) : ulpExp p q ≤ J :=
  log2Aux_le_of_lt _ _ _ h 12 0 (Nat.zero_le _)

theorem pow_ulp_dvd_scale (j : Nat) (hj : j ≤ 1074) : 2 ^ j ∣ f64Scale := by
  unfold f64Scale
  exact pow_dvd_pow 2 hj

/-- Integers below `2^53` convert exactly. -/
theorem roundToF64_nat (k : Nat) (hk : k < 2 ^ 53) : roundToF64 k 1 = k * f64Scale := by
  have hj : ulpExp k 1 ≤ 1074 := by
    apply ulpExp_le
    have : k * 2 ^ 1022 < 2 ^ 53 * 2 ^ 1022 := Nat.mul_lt_mul_of_pos_right hk (by positivity)
    calc k * 2 ^ 1022 < 2 ^ 53 * 2 ^ 1022 := this
      _ = 2 ^ (1074 + 1) * 1 := by norm_num
  unfold roundToF64
  rw [one_mul, Nat.div_one]
  exact roundToMultiple_of_dvd _ _ (by positivity)
    ((pow_ulp_dvd_scale _ hj).trans (Dvd.intro_left _ rfl))

/-- Rounding a value that is already on the scale grid. -/
theorem roundToF64_scaled (x : Nat) :
    roundToF64 x f64Scale = roundToMultiple (2 ^ ulpExp x f64Scale) x := by
  unfold roundToF64
  rw [mul_comm x f64Scale, roundToMultiple_scale _ _ _ f64Scale_pos]
  exact Nat.mul_div_cancel_left _ f64Scale_pos

/-- The rounded quotient `n / C` of two exactly converted integers with `n < C`
exceeds the exact quotient by at most half an ulp of the binade below 1. -/
theorem roundToF64_quot_le (n C : Nat) (hC : 0 < C) (hn : n < C) :
    2 * roundToF64 (n * f64Scale) (C * f64Scale) * C ≤ 2 * n * f64Scale + C * 2 ^ 1021 := by
  have hS := f64Scale_pos
  have hj : ulpExp (n * f64Scale) (C * f64Scale) ≤ 1021 := by
    apply ulpExp_le
    have h1 : n * f64Scale < C * f64Scale := Nat.mul_lt_mul_of_pos_right hn hS
    calc n * f64Scale * 2 ^ 1022 < C * f64Scale * 2 ^ 1022 :=
          Nat.mul_lt_mul_of_pos_right h1 (by positivity)
      _ = 2 ^ (1021 + 1) * (C * f64Scale) := by ring
  set j := ulpExp (n * f64Scale) (C * f64Scale) with hjdef
  set T := roundToMultiple (C * f64Scale * 2 ^ j) (n * f64Scale * f64Scale) with hT
  have hCS : 0 < C * f64Scale := Nat.mul_pos hC hS
  have hD : 0 < C * f64Scale * 2 ^ j := Nat.mul_pos hCS (by positivity)
  have hdvd : C * f64Scale ∣ T := (Dvd.intro _ rfl).trans (roundToMultiple_dvd _ _)
  have hG : roundToF64 (n * f64Scale) (C * f64Scale) * (C * f64Scale) = T := by
    unfold roundToF64
    exact Nat.div_mul_cancel hdvd
  have hle : 2 * T ≤ 2 * (n * f64Scale * f64Scale) + C * f64Scale * 2 ^ j :=
    roundToMultiple_le _ _ hD
  have hpow : 2 ^ j ≤ 2 ^ 1021 := Nat.pow_le_pow_right (by decide) hj
  have hle2 : C * f64Scale * 2 ^ j ≤ C * f64Scale * 2 ^ 1021 := Nat.mul_le_mul_left _ hpow
  have key : (2 * roundToF64 (n * f64Scale) (C * f64Scale) * C) * f64Scale
      ≤ (2 * n * f64Scale + C * 2 ^ 1021) * f64Scale := by
    calc (2 * roundToF64 (n * f64Scale) (C * f64Scale) * C) * f64Scale
        = 2 * (roundToF64 (n * f64Scale) (C * f64Scale) * (C * f64Scale)) := by ring
      _ = 2 * T := by rw [hG]
      _ ≤ 2 * (n * f64Scale * f64Scale) + C * f64Scale * 2 ^ j := hle
      _ ≤ 2 * (n * f64Scale * f64Scale) + C * f64Scale * 2 ^ 1021 := Nat.add_le_add_left hle2 _
      _ = (2 * n * f64Scale + C * 2 ^ 1021) * f64Scale := by ring
  exact Nat.le_of_mul_le_mul_right key hS

/-- The core of the exactness argument: the rounded sum of a whole number `H`
and a rounded fraction `n / C` is truncated back to `H`, as long as the sum
stays in a binade whose half ulp is smaller than the gap `1 - n / C`. -/
theorem roundToF64_sum_div (H n C J : Nat) (hC : 0 < C) (hn : n < C) (hJ : J ≤ 1074)
    (hHJ : (H + 1) * 2 ^ 1022 ≤ 2 ^ (J + 1))
    (hgap : 2 * n * f64Scale + C * (2 ^ 1021 + 2 ^ J) < 2 * C * f64Scale) :
    roundToF64 (H * f64Scale + roundToF64 (n * f64Scale) (C * f64Scale)) f64Scale / f64Scale
      = H := by
  have hS := f64Scale_pos
  set G := roundToF64 (n * f64Scale) (C * f64Scale) with hGdef
  have hq := roundToF64_quot_le n C hC hn
  have hG2 : 2 * G + 2 ^ J < 2 * f64Scale := by
    have h1 : (2 * G + 2 ^ J) * C < (2 * f64Scale) * C := by
      calc (2 * G + 2 ^ J) * C = 2 * G * C + C * 2 ^ J := by ring
        _ ≤ 2 * n * f64Scale + C * 2 ^ 1021 + C * 2 ^ J := Nat.add_le_add_right hq _
        _ = 2 * n * f64Scale + C * (2 ^ 1021 + 2 ^ J) := by ring
        _ < 2 * C * f64Scale := hgap
        _ = (2 * f64Scale) * C := by ring
    exact lt_of_mul_lt_mul_right h1 (Nat.zero_le C)
  have hJpos : 0 < 2 ^ J := by positivity
  have hGS : G < f64Scale := by omega
  set X := H * f64Scale + G with hX
  have hXlt : X < (H + 1) * f64Scale := by
    rw [hX, Nat.add_mul, one_mul]
    omega
  have hj : ulpExp X f64Scale ≤ J := by
    apply ulpExp_le
    calc X * 2 ^ 1022 < (H + 1) * f64Scale * 2 ^ 1022 :=
          Nat.mul_lt_mul_of_pos_right hXlt (by positivity)
      _ = (H + 1) * 2 ^ 1022 * f64Scale := by ring
      _ ≤ 2 ^ (J + 1) * f64Scale := Nat.mul_le_mul_right _ hHJ
  set j := ulpExp X f64Scale with hjdef
  have hU : 0 < 2 ^ j := by positivity
  have hUS : 2 ^ j ∣ f64Scale := pow_ulp_dvd_scale j (le_trans hj hJ)
  have hUJ : 2 ^ j ≤ 2 ^ J := Nat.pow_le_pow_right (by decide) hj
  rw [roundToF64_scaled]
  have hlo : H * f64Scale ≤ roundToMultiple (2 ^ j) X :=
    roundToMultiple_ge _ _ _ hU (hUS.trans (Dvd.intro_left _ rfl)) (by rw [hX]; omega)
  have hhi : roundToMultiple (2 ^ j) X < (H + 1) * f64Scale := by
    apply roundToMultiple_lt _ _ _ hU (hUS.trans (Dvd.intro_left _ rfl))
    rw [hX, Nat.add_mul, one_mul]
    omega
  apply Nat.div_eq_of_lt_le
  · exact hlo
  · exact hhi

theorem roundToF64_zero (q : Nat) : roundToF64 0 q = 0 := by
  unfold roundToF64 roundToMultiple
  simp

theorem f64OfRat_neg (p : Int) (q : Nat) : f64OfRat (-p) q = -f64OfRat p q := by
  unfold f64OfRat
  rw [Int.natAbs_neg]
  rcases lt_trichotomy p 0 with h | h | h
  · rw [if_neg (by omega), if_pos h, neg_neg]
  · subst h
    simp [roundToF64_zero]
  · rw [if_pos (by omega), if_neg (by omega)]

theorem f64OfRat_natCast (p q : Nat) : f64OfRat (p : Int) q = (roundToF64 p q : Int) := by
  unfold f64OfRat
  rw [if_neg (by omega), Int.natAbs_ofNat]

theorem tmod_neg_left (a b : Int) : Int.tmod (-a) b = -Int.tmod a b := by
  have h1 := Int.tmod_add_tdiv (-a) b
  have h2 := Int.tmod_add_tdiv a b
  rw [Int.neg_tdiv] at h1
  have h3 : b * -a.tdiv b = -(b * a.tdiv b) := by ring
  rw [h3] at h1
  linarith

/-- The float of a duration changes sign with the duration. -/
theorem durationFloat_neg (unit d : Int) : durationFloat unit (-d) = -durationFloat unit d := by
  unfold durationFloat f64Add f64Div f64OfInt
  rw [Int.neg_tdiv, tmod_neg_left, f64OfRat_neg, f64OfRat_neg]
  have e : (if f64OfRat unit 1 < 0 then - -f64OfRat (d.tmod unit) 1 else -f64OfRat (d.tmod unit) 1)
      = -(if f64OfRat unit 1 < 0 then -f64OfRat (d.tmod unit) 1 else f64OfRat (d.tmod unit) 1) := by
    split_ifs <;> rfl
  rw [e, f64OfRat_neg, ← neg_add, f64OfRat_neg]

theorem f64ToInt_neg (x : Int) : f64ToInt (-x) = -f64ToInt x := by
  unfold f64ToInt
  exact Int.neg_tdiv _ _

/-- The float of a non-negative duration of `N` nanoseconds in units of `C`. -/
theorem durationFloat_natCast (C N : Nat) (hC0 : 0 < C) (hC : C < 2 ^ 53)
    (hH : N / C < 2 ^ 53) :
    durationFloat (C : Int) (N : Int)
      = ((roundToF64 (N / C * f64Scale + roundToF64 (N % C * f64Scale) (C * f64Scale)) f64Scale
          : Nat) : Int) := by
  have hn : N % C < 2 ^ 53 := lt_trans (Nat.mod_lt N hC0) hC
  unfold durationFloat f64Add f64Div f64OfInt
  rw [← Int.ofNat_tdiv, ← Int.ofNat_tmod, f64OfRat_natCast, f64OfRat_natCast, f64OfRat_natCast,
    roundToF64_nat _ hC, roundToF64_nat _ hH, roundToF64_nat _ hn]
  rw [if_neg (by omega), Int.natAbs_ofNat, f64OfRat_natCast]
  rw [← Int.ofNat_add, f64OfRat_natCast]

theorem f64ToInt_natCast (x : Nat) : f64ToInt (x : Int) = ((x / f64Scale : Nat) : Int) := by
  unfold f64ToInt
  exact (Int.ofNat_tdiv x f64Scale).symm

/-- Below the rounding threshold the truncated float of a non-negative duration is
the whole number of units. -/
theorem f64ToInt_durationFloat (C N J : Nat) (hC0 : 0 < C) (hC : C < 2 ^ 53)
    (hH : N / C < 2 ^ 53) (hJ : J ≤ 1074) (hHJ : (N / C + 1) * 2 ^ 1022 ≤ 2 ^ (J + 1))
    (hgap : 2 * (N % C) * f64Scale + C * (2 ^ 1021 + 2 ^ J) < 2 * C * f64Scale) :
    f64ToInt (durationFloat (C : Int) (N : Int)) = ((N / C : Nat) : Int) := by
  rw [durationFloat_natCast C N hC0 hC hH, f64ToInt_natCast,
    roundToF64_sum_div (N / C) (N % C) C J hC0 (Nat.mod_lt N hC0) hJ hHJ hgap]

theorem f64OfRat_nonneg (p : Int) (q : Nat) (hp : 0 ≤ p) : 0 ≤ f64OfRat p q := by
  unfold f64OfRat
  rw [if_neg (not_lt.mpr hp)]
  exact Int.ofNat_nonneg _

theorem durationFloat_nonneg (unit d : Int) (hu : 0 ≤ unit) (hd : 0 ≤ d) :
    0 ≤ durationFloat unit d := by
  unfold durationFloat f64Add
  apply f64OfRat_nonneg
  apply add_nonneg
  · exact f64OfRat_nonneg _ _ (Int.tdiv_nonneg hd hu)
  · have hy : ¬ f64OfInt unit < 0 := not_lt.mpr (f64OfRat_nonneg _ _ hu)
    unfold f64Div
    apply f64OfRat_nonneg
    rw [if_neg hy]
    exact f64OfRat_nonneg _ _ (Int.tmod_nonneg _ hd)

/-- The truncated float of a duration that is not positive is not positive. -/
theorem f64ToInt_durationFloat_neg (unit : Int) (n : Nat) (hu : 0 ≤ unit) :
    ∃ k : Nat, f64ToInt (durationFloat unit (-(n : Int))) = -(k : Int) := by
  have h0 : 0 ≤ f64ToInt (durationFloat unit (n : Int)) := by
    unfold f64ToInt
    exact Int.tdiv_nonneg (durationFloat_nonneg unit _ hu (Int.ofNat_nonneg n))
      (Int.ofNat_nonneg _)
  refine ⟨(f64ToInt (durationFloat unit (n : Int))).toNat, ?_⟩
  rw [durationFloat_neg, f64ToInt_neg]
  omega

/-! ## Properties of `hms` and `formatMediaTime` -/

theorem tdiv_natCast (n k : Nat) : Int.tdiv (n : Int) (k : Int) = ((n / k : Nat) : Int) :=
  (Int.ofNat_tdiv n k).symm

theorem tmod_natCast (n k : Nat) : Int.tmod (n : Int) (k : Int) = ((n % k : Nat) : Int) :=
  (Int.ofNat_tmod n k).symm

theorem tdiv_neg_natCast (n k : Nat) :
    Int.tdiv (-(n : Int)) (k : Int) = -((n / k : Nat) : Int) := by
  rw [Int.neg_tdiv, tdiv_natCast]

theorem tmod_neg_natCast (n k : Nat) :
    Int.tmod (-(n : Int)) (k : Int) = -((n % k : Nat) : Int) := by
  have h1 := Int.tmod_add_tdiv (-(n : Int)) (k : Int)
  have h2 := Nat.mod_add_div n k
  rw [tdiv_neg_natCast] at h1
  have h3 : ((n % k : Nat) : Int) + (k : Int) * ((n / k : Nat) : Int) = (n : Int) := by
    exact_mod_cast h2
  linarith

theorem intSeconds_natCast (N : Nat) (hN : N < 14749199999999999) :
    intSeconds (N : Int) = ((N / 1000000000 : Nat) : Int) := by
  have hS : Second = ((1000000000 : Nat) : Int) := by decide
  unfold intSeconds
  rw [hS]
  apply f64ToInt_durationFloat 1000000000 N 1045 (by decide) (by decide) (by omega) (by decide)
  · have : N / 1000000000 + 1 ≤ 2 ^ 24 := by omega
    calc (N / 1000000000 + 1) * 2 ^ 1022 ≤ 2 ^ 24 * 2 ^ 1022 := Nat.mul_le_mul_right _ this
      _ = 2 ^ (1045 + 1) := by norm_num
  · have hm : N % 1000000000 ≤ 999999999 := by omega
    unfold f64Scale
    omega

theorem intMinutes_natCast (N : Nat) (hN : N < 14749199999999999) :
    intMinutes (N : Int) = ((N / 60000000000 : Nat) : Int) := by
  have hS : Minute = ((60000000000 : Nat) : Int) := by decide
  unfold intMinutes
  rw [hS]
  apply f64ToInt_durationFloat 60000000000 N 1039 (by decide) (by decide) (by omega) (by decide)
  · have : N / 60000000000 + 1 ≤ 2 ^ 18 := by omega
    calc (N / 60000000000 + 1) * 2 ^ 1022 ≤ 2 ^ 18 * 2 ^ 1022 := Nat.mul_le_mul_right _ this
      _ = 2 ^ (1039 + 1) := by norm_num
  · have hm : N % 60000000000 ≤ 59999999999 := by omega
    unfold f64Scale
    omega

theorem intHours_natCast (N : Nat) (hN : N < 14749199999999999) :
    intHours (N : Int) = ((N / 3600000000000 : Nat) : Int) := by
  have hS : Hour = ((3600000000000 : Nat) : Int) := by decide
  unfold intHours
  rw [hS]
  by_cases h : N / 3600000000000 ≤ 4095
  · apply f64ToInt_durationFloat 3600000000000 N 1033 (by decide) (by decide) (by omega)
      (by decide)
    · have : N / 3600000000000 + 1 ≤ 2 ^ 12 := by omega
      calc (N / 3600000000000 + 1) * 2 ^ 1022 ≤ 2 ^ 12 * 2 ^ 1022 := Nat.mul_le_mul_right _ this
        _ = 2 ^ (1033 + 1) := by norm_num
    · have hm : N % 3600000000000 ≤ 3599999999999 := by omega
      unfold f64Scale
      omega
  · apply f64ToInt_durationFloat 3600000000000 N 1034 (by decide) (by decide) (by omega)
      (by decide)
    · have : N / 3600000000000 + 1 ≤ 2 ^ 13 := by omega
      calc (N / 3600000000000 + 1) * 2 ^ 1022 ≤ 2 ^ 13 * 2 ^ 1022 := Nat.mul_le_mul_right _ this
        _ = 2 ^ (1034 + 1) := by norm_num
    · have hm : N % 3600000000000 ≤ 3599999999998 := by omega
      unfold f64Scale
      omega

/-- The components of `hms` on a non-negative duration of `n` nanoseconds below
`4097 h - 1 ns`, in terms of the whole seconds `n / 10^9`. -/
theorem hms_natCast (n : Nat) (hn : n < 14749199999999999) :
    hms (n : Int) =
      (((n / 1000000000 / 3600 : Nat) : Int), ((n / 1000000000 / 60 % 60 : Nat) : Int),
        ((n / 1000000000 % 60 : Nat) : Int)) := by
  have e1 : n / 3600000000000 = n / 1000000000 / 3600 := by omega
  have e2 : n / 60000000000 = n / 1000000000 / 60 := by omega
  have h60 : (60 : Int) = ((60 : Nat) : Int) := rfl
  unfold hms
  rw [intHours_natCast n hn, intMinutes_natCast n hn, intSeconds_natCast n hn, h60,
    tmod_natCast, tmod_natCast, e1, e2]

/-- The components of `hms` change sign with the duration. -/
theorem hms_neg (d : Int) :
    hms (-d) = (-(hms d).1, -(hms d).2.1, -(hms d).2.2) := by
  unfold hms intHours intMinutes intSeconds
  simp only []
  rw [durationFloat_neg, durationFloat_neg, durationFloat_neg, f64ToInt_neg, f64ToInt_neg,
    f64ToInt_neg, tmod_neg_left, tmod_neg_left]

/-- The components of `hms` on a negative duration of `-n` nanoseconds above
`-(4097 h - 1 ns)`: those of `n`, negated. -/
theorem hms_neg_natCast (n : Nat) (hn : n < 14749199999999999) :
    hms (-(n : Int)) =
      (-((n / 1000000000 / 3600 : Nat) : Int), -((n / 1000000000 / 60 % 60 : Nat) : Int),
        -((n / 1000000000 % 60 : Nat) : Int)) := by
  rw [hms_neg, hms_natCast n hn]

/-- The components of `hms` on any duration that is not positive: the hours are
not positive, the minutes and seconds lie in `[-59, 0]`. -/
theorem hms_neg_shape (n : Nat) :
    ∃ a b c : Nat, hms (-(n : Int)) =
      (-(a : Int), -((b % 60 : Nat) : Int), -((c % 60 : Nat) : Int)) := by
  have hH : (0 : Int) ≤ Hour := by decide
  have hM : (0 : Int) ≤ Minute := by decide
  have hS : (0 : Int) ≤ Second := by decide
  obtain ⟨a, ha⟩ := f64ToInt_durationFloat_neg Hour n hH
  obtain ⟨b, hb⟩ := f64ToInt_durationFloat_neg Minute n hM
  obtain ⟨c, hc⟩ := f64ToInt_durationFloat_neg Second n hS
  have h60 : (60 : Int) = ((60 : Nat) : Int) := rfl
  refine ⟨a, b, c, ?_⟩
  unfold hms intHours intMinutes intSeconds
  rw [ha, hb, hc, h60, tmod_neg_natCast, tmod_neg_natCast]

theorem fmtD_natCast (n : Nat) : fmtD (n : Int) = Nat.repr n := by
  unfold fmtD
  rw [if_neg (by omega), Int.natAbs_ofNat]

set_option maxRecDepth 100000 in
theorem fmtD02_fin (n : Fin 100) : fmtD02 (n.val : Int) = twoDigits n.val := by
  revert n
  decide

theorem fmtD02_natCast (n : Nat) (h : n < 100) : fmtD02 (n : Int) = twoDigits n :=
  fmtD02_fin ⟨n, h⟩

set_option maxRecDepth 100000 in
theorem fmt_neg_fin (m s : Fin 60) :
    fmtD (-(m.val : Int)) ++ ":" ++ fmtD02 (-(s.val : Int)) = "0:00" ↔ m.val = 0 ∧ s.val = 0 := by
  revert m s
  decide

theorem formatMediaTime_natCast (n : Nat) (hn : n < 14749199999999999) :
    formatMediaTime (n : Int) = formatElapsedSpec (n / 1000000000) := by
  unfold formatMediaTime formatElapsedSpec
  rw [hms_natCast n hn]
  simp only []
  have hm : n / 1000000000 / 60 % 60 < 100 := by omega
  have hs : n / 1000000000 % 60 < 100 := by omega
  rw [fmtD_natCast, fmtD_natCast, fmtD02_natCast _ hm, fmtD02_natCast _ hs]
  by_cases h : 0 < n / 1000000000 / 3600
  · rw [if_pos h, if_pos (by exact_mod_cast h)]
  · rw [if_neg h, if_neg (by push_cast; omega)]

/-- C8, as stated, fails: the duration `4097 h - 1 ns` is not negative and has
14749199 whole seconds, which the specification renders as "4096:59:59"; the
`float64` value of `Duration.Hours()` (and of `Minutes()` and `Seconds()`)
rounds up to the next integer there, so `formatMediaTime` returns "4097:59:59".
In the same way `33554432 s - 1 ns` gives "9320:40:32" against "9320:40:31". -/
theorem formatMediaTime_rounds_up :
    (0 : Int) ≤ 4097 * Hour - 1 ∧ wholeSeconds (4097 * Hour - 1) = 14749199 ∧
    formatElapsedSpec (wholeSeconds (4097 * Hour - 1)) = "4096:59:59" ∧
    formatMediaTime (4097 * Hour - 1) = "4097:59:59" ∧
    formatElapsedSpec (wholeSeconds (33554432 * Second - 1)) = "9320:40:31" ∧
    formatMediaTime (33554432 * Second - 1) = "9320:40:32" := by
  decide

/-- C8, amended: for every duration `d` with `0 ≤ d < 4097 h - 1 ns`, with `t` its
whole seconds (`t * Second ≤ d < (t + 1) * Second`), `formatMediaTime d` is the
specified rendering of `t`: `decimal(h):MM:SS` when `h = t / 3600 > 0`, else
`decimal(m):SS`; 75 s gives "1:15", 3725 s gives "1:02:05" and 0 gives "0:00". -/
theorem formatMediaTime_spec (d : Int) (hd : 0 ≤ d) (hb : d < 4097 * Hour - 1) :
    formatMediaTime d = formatElapsedSpec (wholeSeconds d) ∧
    (wholeSeconds d : Int) * Second ≤ d ∧ d < ((wholeSeconds d : Int) + 1) * Second ∧
    formatMediaTime (75 * Second) = "1:15" ∧
    formatMediaTime (3725 * Second) = "1:02:05" ∧
    formatMediaTime 0 = "0:00" := by
  obtain ⟨n, rfl⟩ := Int.eq_ofNat_of_zero_le hd
  have hH : Hour = 3600000000000 := by decide
  have hn : n < 14749199999999999 := by
    rw [hH] at hb
    omega
  have hw : wholeSeconds (n : Int) = n / 1000000000 := by
    unfold wholeSeconds
    omega
  have hS : Second = 1000000000 := by decide
  refine ⟨?_, ?_, ?_, by decide, by decide, by decide⟩
  · rw [hw, formatMediaTime_natCast n hn]
  · rw [hw, hS]
    omega
  · rw [hw, hS]
    omega

theorem formatMediaTime_spec_witness :
    (0 : Int) ≤ 3725999999999 ∧ (3725999999999 : Int) < 4097 * Hour - 1 ∧
    (formatMediaTime 3725999999999 = formatElapsedSpec (wholeSeconds 3725999999999) ∧
    (wholeSeconds 3725999999999 : Int) * Second ≤ 3725999999999 ∧
    3725999999999 < ((wholeSeconds 3725999999999 : Int) + 1) * Second ∧
    formatMediaTime (75 * Second) = "1:15" ∧
    formatMediaTime (3725 * Second) = "1:02:05" ∧
    formatMediaTime 0 = "0:00") :=
  ⟨by decide, by decide, formatMediaTime_spec 3725999999999 (by decide) (by decide)⟩

/-- C9, as stated, fails: the duration of -5 s is negative, `hms` gives it the
negative seconds component -5, and `formatMediaTime` renders "0:-5", which is
not `formatMediaTime 0 = "0:00"`. -/
theorem formatMediaTime_not_clamped :
    -5 * Second < 0 ∧ hms (-5 * Second) = (0, 0, -5) ∧
    formatMediaTime (-5 * Second) = "0:-5" ∧ formatMediaTime 0 = "0:00" ∧
    formatMediaTime (-5 * Second) ≠ formatMediaTime 0 := by
  decide

/-- C9, amended: for every duration `d < 0`, `formatMediaTime d` is defined (the
function is total) and nothing is clamped: the components `(h, m, s)` of `hms d`
satisfy `h ≤ 0`, `-59 ≤ m ≤ 0` and `-59 ≤ s ≤ 0`; the output is always the `M:SS`
form of the signed `m` and `s`; it equals `formatMediaTime 0 = "0:00"` exactly
when `m = 0` and `s = 0`, which is the case whenever `-1 s < d`; and for
`d > -(4097 h - 1 ns)` the components add up to the whole seconds of `d`
truncated toward zero. -/
theorem formatMediaTime_neg (d : Int) (hd : d < 0) :
    (hms d).1 ≤ 0 ∧ (-59 ≤ (hms d).2.1 ∧ (hms d).2.1 ≤ 0) ∧
    (-59 ≤ (hms d).2.2 ∧ (hms d).2.2 ≤ 0) ∧
    formatMediaTime d = fmtD (hms d).2.1 ++ ":" ++ fmtD02 (hms d).2.2 ∧
    (formatMediaTime d = formatMediaTime 0 ↔ (hms d).2.1 = 0 ∧ (hms d).2.2 = 0) ∧
    (-Second < d → formatMediaTime d = "0:00") ∧
    (-(4097 * Hour - 1) < d →
      (hms d).1 * 3600 + (hms d).2.1 * 60 + (hms d).2.2 = Int.tdiv d Second) := by
  obtain ⟨n, hn⟩ : ∃ n : Nat, d = -(n : Int) := ⟨d.natAbs, by omega⟩
  subst hn
  have hS : Second = ((1000000000 : Nat) : Int) := by decide
  have hH : Hour = 3600000000000 := by decide
  have h0 : formatMediaTime 0 = "0:00" := by decide
  obtain ⟨a, b, c, hshape⟩ := hms_neg_shape n
  have hfmt : formatMediaTime (-(n : Int)) =
      fmtD (hms (-(n : Int))).2.1 ++ ":" ++ fmtD02 (hms (-(n : Int))).2.2 := by
    unfold formatMediaTime
    rw [hshape]
    simp only []
    rw [if_neg (by omega)]
  have hiff : formatMediaTime (-(n : Int)) = "0:00" ↔
      (hms (-(n : Int))).2.1 = 0 ∧ (hms (-(n : Int))).2.2 = 0 := by
    rw [hfmt, hshape]
    simp only []
    have key := fmt_neg_fin ⟨b % 60, Nat.mod_lt _ (by decide)⟩ ⟨c % 60, Nat.mod_lt _ (by decide)⟩
    simp only [] at key
    rw [key]
    omega
  refine ⟨?_, ?_, ?_, hfmt, ?_, ?_, ?_⟩
  · rw [hshape]
    simp only []
    omega
  · rw [hshape]
    simp only []
    omega
  · rw [hshape]
    simp only []
    omega
  · rw [h0]
    exact hiff
  · intro hlt
    have hn : n < 14749199999999999 := by
      rw [hS] at hlt
      omega
    rw [hiff, hms_neg_natCast n hn]
    simp only []
    rw [hS] at hlt
    omega
  · intro hlt
    have hn : n < 14749199999999999 := by
      rw [hH] at hlt
      omega
    rw [hms_neg_natCast n hn, hS, tdiv_neg_natCast]
    simp only []
    omega

theorem formatMediaTime_neg_witness :
    (-3725000000000 : Int) < 0 ∧
    ((hms (-3725000000000)).1 ≤ 0 ∧
    (-59 ≤ (hms (-3725000000000)).2.1 ∧ (hms (-3725000000000)).2.1 ≤ 0) ∧
    (-59 ≤ (hms (-3725000000000)).2.2 ∧ (hms (-3725000000000)).2.2 ≤ 0) ∧
    formatMediaTime (-3725000000000) =
      fmtD (hms (-3725000000000)).2.1 ++ ":" ++ fmtD02 (hms (-3725000000000)).2.2 ∧
    (formatMediaTime (-3725000000000) = formatMediaTime 0 ↔
      (hms (-3725000000000)).2.1 = 0 ∧ (hms (-3725000000000)).2.2 = 0) ∧
    (-Second < -3725000000000 → formatMediaTime (-3725000000000) = "0:00") ∧
    (-(4097 * Hour - 1) < -3725000000000 →
      (hms (-3725000000000)).1 * 3600 + (hms (-3725000000000)).2.1 * 60 +
        (hms (-3725000000000)).2.2 = Int.tdiv (-3725000000000) Second)) :=
  ⟨by decide, formatMediaTime_neg (-3725000000000) (by decide)⟩

/-- C10, as stated, fails: the duration `4097 h - 1 ns` is not negative and has
14749199 whole seconds, but `hms` gives it the components `(4097, 59, 59)`, which
add up to 14752799 seconds: the `float64` values of `Duration.Hours()`,
`Minutes()` and `Seconds()` round up to the next integer there. -/
theorem hms_rounds_up :
    (0 : Int) ≤ 4097 * Hour - 1 ∧ hms (4097 * Hour - 1) = (4097, 59, 59) ∧
    (4097 * 3600 + 59 * 60 + 59 : Int) = 14752799 ∧
    (14749199 : Int) * Second ≤ 4097 * Hour - 1 ∧ 4097 * Hour - 1 < (14749199 + 1) * Second ∧
    ¬ ((4097 * 3600 + 59 * 60 + 59 : Int) * Second ≤ 4097 * Hour - 1) := by
  decide

/-- C10, amended: for every duration `d` with `0 ≤ d < 4097 h - 1 ns`,
`hms d = (h, m, s)` has `h ≥ 0`, `0 ≤ m ≤ 59`, `0 ≤ s ≤ 59`, and
`h * 3600 + m * 60 + s` is the number `t` of whole seconds of `d`, rounded down:
`t * Second ≤ d < (t + 1) * Second`. -/
theorem hms_spec (d : Int) (hd : 0 ≤ d) (hb : d < 4097 * Hour - 1) :
    0 ≤ (hms d).1 ∧ (0 ≤ (hms d).2.1 ∧ (hms d).2.1 ≤ 59) ∧
    (0 ≤ (hms d).2.2 ∧ (hms d).2.2 ≤ 59) ∧
    ((hms d).1 * 3600 + (hms d).2.1 * 60 + (hms d).2.2) * Second ≤ d ∧
    d < ((hms d).1 * 3600 + (hms d).2.1 * 60 + (hms d).2.2 + 1) * Second := by
  obtain ⟨n, rfl⟩ := Int.eq_ofNat_of_zero_le hd
  have hH : Hour = 3600000000000 := by decide
  have hn : n < 14749199999999999 := by
    rw [hH] at hb
    omega
  have hS : Second = 1000000000 := by decide
  rw [hms_natCast n hn, hS]
  simp only []
  omega

theorem hms_spec_witness :
    (0 : Int) ≤ 3725999999999 ∧ (3725999999999 : Int) < 4097 * Hour - 1 ∧
    (0 ≤ (hms 3725999999999).1 ∧
    (0 ≤ (hms 3725999999999).2.1 ∧ (hms 3725999999999).2.1 ≤ 59) ∧
    (0 ≤ (hms 3725999999999).2.2 ∧ (hms 3725999999999).2.2 ≤ 59) ∧
    ((hms 3725999999999).1 * 3600 + (hms 3725999999999).2.1 * 60 +
      (hms 3725999999999).2.2) * Second ≤ 3725999999999 ∧
    3725999999999 < ((hms 3725999999999).1 * 3600 + (hms 3725999999999).2.1 * 60 +
      (hms 3725999999999).2.2 + 1) * Second) :=
  ⟨by decide, by decide, hms_spec 3725999999999 (by decide) (by decide)⟩

/-! ## Properties of `mediaFormatFunc` -/

theorem length_le_utf8ByteSize_go (cs : List Char) :
    cs.length ≤ String.utf8ByteSize.go cs := by
  induction cs with
  | nil => simp [String.utf8ByteSize.go]
  | cons c cs ih =>
    have hc := Char.utf8Size_pos c
    simp only [String.utf8ByteSize.go, List.length_cons]
    omega

/-- A string has at most as many runes as bytes. -/
theorem runeLen_le_len (s : String) : runeLen s ≤ len s := by
  unfold runeLen len runes String.utf8ByteSize
  exact_mod_cast length_le_utf8ByteSize_go s.data

theorem Result.bind_eq_ok {α β : Type} (r : Result α) (f : α → Result β) (b : β) :
    r.bind f = .ok b ↔ ∃ a, r = .ok a ∧ f a = .ok b := by
  cases r with
  | ok a => simp [Result.bind]
  | fail e => simp [Result.bind]

/-- Whenever `truncate` returns, with any budget, the result fits the budget. -/
theorem truncate_ok_runeLen (s r : String) (n : Int) (h : truncate s n = .ok r) :
    runeLen r ≤ n := by
  by_cases hn : 1 ≤ n
  · obtain ⟨r', hr', hle⟩ := truncate_ok_le s n hn
    rw [hr'] at h
    cases h
    exact hle
  · unfold truncate at h
    by_cases hs : runeLen s ≤ n
    · rw [if_pos hs] at h
      cases h
      exact hs
    · rw [if_neg hs] at h
      unfold sliceTo at h
      rw [if_neg (by omega)] at h
      cases h

/-- The `nil` gate of `mediaFormatFunc`. -/
theorem mediaFormatFunc_eq_none_iff (m : Info) :
    mediaFormatFunc m = .ok none ↔
      (m.PlaybackStatus = .Stopped ∨ m.PlaybackStatus = .Disconnected) := by
  unfold mediaFormatFunc
  constructor
  · intro h
    by_contra hs
    rw [if_neg hs] at h
    obtain ⟨a, -, h⟩ := (Result.bind_eq_ok _ _ _).mp h
    obtain ⟨t, -, h⟩ := (Result.bind_eq_ok _ _ _).mp h
    obtain ⟨a2, -, h⟩ := (Result.bind_eq_ok _ _ _).mp h
    cases h
  · intro hs
    rw [if_pos hs]

/-- The shape of every output of `mediaFormatFunc`: the status is neither
Stopped nor Disconnected and the displayed pair comes out of the three
`truncate` calls. -/
theorem mediaFormatFunc_some (m : Info) (o : MediaOutput)
    (h : mediaFormatFunc m = .ok (some o)) :
    ¬ (m.PlaybackStatus = .Stopped ∨ m.PlaybackStatus = .Disconnected) ∧
    ∃ a1, truncate m.Artist 20 = .ok a1 ∧
      truncate m.Title (40 - len a1) = .ok o.title ∧
      (if len o.title < 20 then truncate m.Artist (40 - len o.title) else .ok a1)
        = .ok o.artist := by
  unfold mediaFormatFunc at h
  by_cases hs : m.PlaybackStatus = .Stopped ∨ m.PlaybackStatus = .Disconnected
  · rw [if_pos hs] at h
    cases h
  · rw [if_neg hs] at h
    obtain ⟨a1, h1, h⟩ := (Result.bind_eq_ok _ _ _).mp h
    obtain ⟨t, h2, h⟩ := (Result.bind_eq_ok _ _ _).mp h
    obtain ⟨a2, h3, h⟩ := (Result.bind_eq_ok _ _ _).mp h
    cases h
    exact ⟨hs, a1, h1, h2, h3⟩

/-- C5: on a Playing (and on a Paused) snapshot whose artist is 14 three-byte
characters the code fails: the artist has 14 runes but 42 bytes, the title
budget `40 - len(artist)` is `-2`, and `truncate` then slices with the upper
bound `-3`. -/
theorem mediaFormatFunc_fails_on_multibyte_artist :
    runeLen "ああああああああああああああ" = 14 ∧ len "ああああああああああああああ" = 42 ∧
    truncate "ああああああああああああああ" 20 = .ok "ああああああああああああああ" ∧
    truncate "Short" (40 - len "ああああああああああああああ") = .fail .sliceBounds ∧
    mediaFormatFunc ⟨.Playing, "ああああああああああああああ", "Short", 75 * Second, 5 * Second⟩
      = .fail .sliceBounds ∧
    mediaFormatFunc ⟨.Paused, "ああああああああああああああ", "", 75 * Second, 5 * Second⟩
      = .fail .sliceBounds := by
  decide

/-- C6: whenever `mediaFormatFunc` produces an output (the snapshot is then
Playing or Paused), the displayed artist and the displayed title together hold
at most 40 runes. -/
theorem mediaFormatFunc_pair_bound (m : Info) (o : MediaOutput)
    (h : mediaFormatFunc m = .ok (some o)) :
    (m.PlaybackStatus = .Playing ∨ m.PlaybackStatus = .Paused) ∧
    runeLen o.artist + runeLen o.title ≤ 40 := by
  obtain ⟨hs, a1, h1, h2, h3⟩ := mediaFormatFunc_some m o h
  constructor
  · cases hp : m.PlaybackStatus <;> simp_all
  · have ht := truncate_ok_runeLen _ _ _ h2
    have hb1 := runeLen_le_len a1
    have hb2 := runeLen_le_len o.title
    by_cases hl : len o.title < 20
    · rw [if_pos hl] at h3
      have ha := truncate_ok_runeLen _ _ _ h3
      omega
    · rw [if_neg hl] at h3
      cases h3
      omega

theorem mediaFormatFunc_pair_bound_witness :
    mediaFormatFunc ⟨.Paused, "A Very Long Artist Name Indeed", "Short", 75 * Second, 5 * Second⟩
      = .ok (some ⟨"fa-music", "#f70", none, "Short", " - ", "A Very Long Artist Name Indeed"⟩) ∧
    (((⟨.Paused, "A Very Long Artist Name Indeed", "Short", 75 * Second, 5 * Second⟩ : Info).PlaybackStatus
        = .Playing ∨
      (⟨.Paused, "A Very Long Artist Name Indeed", "Short", 75 * Second, 5 * Second⟩ : Info).PlaybackStatus
        = .Paused) ∧
     runeLen (⟨"fa-music", "#f70", none, "Short", " - ",
        "A Very Long Artist Name Indeed"⟩ : MediaOutput).artist +
      runeLen (⟨"fa-music", "#f70", none, "Short", " - ",
        "A Very Long Artist Name Indeed"⟩ : MediaOutput).title ≤ 40) :=
  ⟨by decide, mediaFormatFunc_pair_bound
    ⟨.Paused, "A Very Long Artist Name Indeed", "Short", 75 * Second, 5 * Second⟩
    ⟨"fa-music", "#f70", none, "Short", " - ", "A Very Long Artist Name Indeed"⟩ (by decide)⟩

/-- C7: the `nil` gate holds for every snapshot (the result is `nil` exactly
when the status is Stopped or Disconnected), but a Playing snapshot does not
always get an output: with the 15-rune, 45-byte artist below the call fails
instead of returning. -/
theorem mediaFormatFunc_nil_gate_and_failure :
    (∀ m : Info, mediaFormatFunc m = .ok none ↔
      (m.PlaybackStatus = .Stopped ∨ m.PlaybackStatus = .Disconnected)) ∧
    mediaFormatFunc ⟨.Playing, "東京スカパラダイスオーケストラ", "Paradise Has No Border", 240 * Second, 0⟩
      = .fail .sliceBounds :=
  ⟨mediaFormatFunc_eq_none_iff, by decide⟩

/-! ## Properties of `scale`, `netColor` and `vbar` -/

theorem wrapInt64_of_range (x : Int) (h1 : -2 ^ 63 ≤ x) (h2 : x < 2 ^ 63) : wrapInt64 x = x := by
  unfold wrapInt64
  omega

/-- The two assignments at the head of `scale` and `vbar` are the clamp to
`[0, vmax]` when `vmax` is not negative. -/
theorem clamp_code (v vmax : Int) (h : 0 ≤ vmax) :
    (if (if v > vmax then vmax else v) < 0 then 0 else (if v > vmax then vmax else v))
      = clampSpec v 0 vmax := by
  unfold clampSpec
  by_cases h1 : v > vmax
  · rw [if_pos h1, if_neg (by omega)]
    omega
  · rw [if_neg h1]
    by_cases h2 : v < 0
    · rw [if_pos h2]
      omega
    · rw [if_neg h2]
      omega

theorem clampSpec_bounds (v vmax : Int) (h : 0 ≤ vmax) :
    0 ≤ clampSpec v 0 vmax ∧ clampSpec v 0 vmax ≤ vmax := by
  unfold clampSpec
  omega

theorem clampSpec_mono (v1 v2 vmax : Int) (h : v1 ≤ v2) :
    clampSpec v1 0 vmax ≤ clampSpec v2 0 vmax := by
  unfold clampSpec
  omega

theorem scaleSpec_bounds (v vmax steps : Int) (hvmax : 0 < vmax) (hsteps : 0 ≤ steps) :
    0 ≤ scaleSpec v vmax steps ∧ scaleSpec v vmax steps ≤ steps := by
  obtain ⟨h0, h1⟩ := clampSpec_bounds v vmax (le_of_lt hvmax)
  unfold scaleSpec
  constructor
  · exact Int.ediv_nonneg (mul_nonneg h0 hsteps) (le_of_lt hvmax)
  · apply Int.ediv_le_of_le_mul hvmax
    calc clampSpec v 0 vmax * steps ≤ vmax * steps := mul_le_mul_of_nonneg_right h1 hsteps
      _ = steps * vmax := mul_comm _ _

theorem scaleSpec_mono (v1 v2 vmax steps : Int) (hvmax : 0 < vmax) (hsteps : 0 ≤ steps)
    (h : v1 ≤ v2) : scaleSpec v1 vmax steps ≤ scaleSpec v2 vmax steps := by
  unfold scaleSpec
  exact Int.ediv_le_ediv hvmax (mul_le_mul_of_nonneg_right (clampSpec_mono v1 v2 vmax h) hsteps)

/-- Without overflow of the product, `scale` returns the specified value. -/
theorem scale_eq_scaleSpec (v vmax steps : Int) (hvmax : 0 < vmax) (hsteps : 0 ≤ steps)
    (hno : clampSpec v 0 vmax * steps ≤ 2 ^ 63 - 1) :
    scale v vmax steps = .ok (scaleSpec v vmax steps) := by
  obtain ⟨h0, -⟩ := clampSpec_bounds v vmax (le_of_lt hvmax)
  have hp : 0 ≤ clampSpec v 0 vmax * steps := mul_nonneg h0 hsteps
  have hq0 : 0 ≤ clampSpec v 0 vmax * steps / vmax := Int.ediv_nonneg hp (le_of_lt hvmax)
  have hq1 : clampSpec v 0 vmax * steps / vmax ≤ clampSpec v 0 vmax * steps :=
    Int.ediv_le_self _ hp
  unfold scale
  simp only []
  rw [clamp_code v vmax (le_of_lt hvmax)]
  unfold goDiv goMul scaleSpec
  have e1 : wrapInt64 (clampSpec v 0 vmax * steps) = clampSpec v 0 vmax * steps :=
    wrapInt64_of_range _ (by omega) (by omega)
  rw [if_neg (by omega), e1, Int.tdiv_eq_ediv hp (le_of_lt hvmax),
    wrapInt64_of_range _ (by omega) (by omega)]

/-- C11: for all `v`, `vmax > 0` and `steps ≥ 0` whose product
`clamp(v, 0, vmax) * steps` does not overflow, `scale` returns
`floor(clamp(v, 0, vmax) * steps / vmax)`, a value `q` with
`q * vmax ≤ clamp * steps < (q + 1) * vmax` that lies in `[0, steps]`, is `0`
for `v ≤ 0` and `steps` for `v ≥ vmax`; the three stated examples hold. -/
theorem scale_spec (v vmax steps : Int) (hvmax : 0 < vmax) (hsteps : 0 ≤ steps)
    (hno : clampSpec v 0 vmax * steps ≤ 2 ^ 63 - 1) :
    scale v vmax steps = .ok (scaleSpec v vmax steps) ∧
    (scaleSpec v vmax steps * vmax ≤ clampSpec v 0 vmax * steps ∧
      clampSpec v 0 vmax * steps < (scaleSpec v vmax steps + 1) * vmax) ∧
    (0 ≤ scaleSpec v vmax steps ∧ scaleSpec v vmax steps ≤ steps) ∧
    (v ≤ 0 → scaleSpec v vmax steps = 0) ∧
    (vmax ≤ v → scaleSpec v vmax steps = steps) ∧
    scale 0 100000 200 = .ok 0 ∧ scale 100000 100000 200 = .ok 200 ∧
    scale 200000 100000 200 = .ok 200 := by
  refine ⟨scale_eq_scaleSpec v vmax steps hvmax hsteps hno, ⟨?_, ?_⟩,
    scaleSpec_bounds v vmax steps hvmax hsteps, ?_, ?_, by decide, by decide, by decide⟩
  · unfold scaleSpec
    exact Int.ediv_mul_le _ (ne_of_gt hvmax)
  · unfold scaleSpec
    exact Int.lt_ediv_add_one_mul_self _ hvmax
  · intro hv
    have hc : clampSpec v 0 vmax = 0 := by
      unfold clampSpec
      omega
    unfold scaleSpec
    rw [hc]
    simp
  · intro hv
    have hc : clampSpec v 0 vmax = vmax := by
      unfold clampSpec
      omega
    unfold scaleSpec
    rw [hc, mul_comm]
    exact Int.mul_ediv_cancel _ (ne_of_gt hvmax)

theorem scale_spec_witness :
    (0 : Int) < 7 ∧ (0 : Int) ≤ 8 ∧ clampSpec 5 0 7 * 8 ≤ 2 ^ 63 - 1 ∧
    (scale 5 7 8 = .ok (scaleSpec 5 7 8) ∧
    (scaleSpec 5 7 8 * 7 ≤ clampSpec 5 0 7 * 8 ∧
      clampSpec 5 0 7 * 8 < (scaleSpec 5 7 8 + 1) * 7) ∧
    (0 ≤ scaleSpec 5 7 8 ∧ scaleSpec 5 7 8 ≤ 8) ∧
    ((5 : Int) ≤ 0 → scaleSpec 5 7 8 = 0) ∧
    ((7 : Int) ≤ 5 → scaleSpec 5 7 8 = 8) ∧
    scale 0 100000 200 = .ok 0 ∧ scale 100000 100000 200 = .ok 200 ∧
    scale 200000 100000 200 = .ok 200) :=
  ⟨by decide, by decide, by decide, scale_spec 5 7 8 (by decide) (by decide) (by decide)⟩

/-- C12, as stated, fails: with `vmax = 2^62 > 0` and `steps = 3 ≥ 0` the values
`2^61 ≤ 2^62` are scaled to `1` and to `-1`, because the product `2^62 * 3`
wraps around in the 64-bit `int`. -/
theorem scale_not_monotone_on_overflow :
    (0 : Int) < 2 ^ 62 ∧ (0 : Int) ≤ 3 ∧ (2 : Int) ^ 61 ≤ 2 ^ 62 ∧
    scale (2 ^ 61) (2 ^ 62) 3 = .ok 1 ∧ scale (2 ^ 62) (2 ^ 62) 3 = .ok (-1) ∧
    ¬ ((1 : Int) ≤ -1) := by
  decide

/-- C12, amended: for all `vmax > 0` and `steps ≥ 0` whose product `vmax * steps`
does not overflow, and all `v1 ≤ v2`, both calls of `scale` return and the
first result is at most the second. -/
theorem scale_monotone (v1 v2 vmax steps : Int) (hvmax : 0 < vmax) (hsteps : 0 ≤ steps)
    (hno : vmax * steps ≤ 2 ^ 63 - 1) (h : v1 ≤ v2) :
    ∃ i1 i2, scale v1 vmax steps = .ok i1 ∧ scale v2 vmax steps = .ok i2 ∧ i1 ≤ i2 := by
  have hb : ∀ v, clampSpec v 0 vmax * steps ≤ 2 ^ 63 - 1 := fun v =>
    le_trans (mul_le_mul_of_nonneg_right (clampSpec_bounds v vmax (le_of_lt hvmax)).2 hsteps) hno
  exact ⟨_, _, scale_eq_scaleSpec v1 vmax steps hvmax hsteps (hb v1),
    scale_eq_scaleSpec v2 vmax steps hvmax hsteps (hb v2),
    scaleSpec_mono v1 v2 vmax steps hvmax hsteps h⟩

theorem scale_monotone_witness :
    (0 : Int) < 100000 ∧ (0 : Int) ≤ 200 ∧ (100000 : Int) * 200 ≤ 2 ^ 63 - 1 ∧
    (40000 : Int) ≤ 70000 ∧
    ∃ i1 i2, scale 40000 100000 200 = .ok i1 ∧ scale 70000 100000 200 = .ok i2 ∧ i1 ≤ i2 :=
  ⟨by decide, by decide, by decide, by decide,
    scale_monotone 40000 70000 100000 200 (by decide) (by decide) (by decide) (by decide)⟩

theorem scaleSpec_of_nonpos (v vmax steps : Int) (hvmax : 0 < vmax) (hv : v ≤ 0) :
    scaleSpec v vmax steps = 0 := by
  have hc : clampSpec v 0 vmax = 0 := by
    unfold clampSpec
    omega
  unfold scaleSpec
  rw [hc]
  simp

theorem scaleSpec_of_ge (v vmax steps : Int) (hvmax : 0 < vmax) (hv : vmax ≤ v) :
    scaleSpec v vmax steps = steps := by
  have hc : clampSpec v 0 vmax = vmax := by
    unfold clampSpec
    omega
  unfold scaleSpec
  rw [hc, mul_comm]
  exact Int.mul_ediv_cancel _ (ne_of_gt hvmax)

set_option maxRecDepth 100000 in
theorem fmtX02_fin (n : Fin 256) : fmtX02 (n.val : Int) = twoHex n.val := by
  revert n
  decide

theorem intensitySpec_eq (b : Int) : intensitySpec b = scaleSpec b 100000 200 + 55 := by
  obtain ⟨h0, h1⟩ := scaleSpec_bounds b 100000 200 (by decide) (by decide)
  unfold intensitySpec clampSpec
  omega

/-- C13: for every throughput of `b` whole bytes per second, `netColor b 100000`
returns `#` followed three times by the two lowercase hexadecimal digits of the
byte `clamp(scale(b, 100000, 200) + 55, 0, 255)`; the byte lies in `[55, 255]`,
is 55 for `b ≤ 0` and 255 for `b ≥ 100000`, and does not decrease when `b`
grows. -/
theorem netColor_spec (b : Int) :
    scale b 100000 200 = .ok (scaleSpec b 100000 200) ∧
    netColor b 100000 = .ok ("#" ++ twoHex (intensitySpec b).toNat ++
      twoHex (intensitySpec b).toNat ++ twoHex (intensitySpec b).toNat) ∧
    (55 ≤ intensitySpec b ∧ intensitySpec b ≤ 255) ∧
    (b ≤ 0 → intensitySpec b = 55) ∧
    (100000 ≤ b → intensitySpec b = 255) ∧
    (∀ b', b ≤ b' → intensitySpec b ≤ intensitySpec b') := by
  obtain ⟨h0, h1⟩ := scaleSpec_bounds b 100000 200 (by decide) (by decide)
  obtain ⟨hc0, hc1⟩ := clampSpec_bounds b 100000 (by decide)
  have hs : scale b 100000 200 = .ok (scaleSpec b 100000 200) :=
    scale_eq_scaleSpec b 100000 200 (by decide) (by decide) (by omega)
  have hi := intensitySpec_eq b
  refine ⟨hs, ?_, by omega, ?_, ?_, ?_⟩
  · have hk : (intensitySpec b).toNat < 256 := by omega
    have hcast : (((intensitySpec b).toNat : Nat) : Int) = scaleSpec b 100000 200 + 55 := by
      omega
    have hx := fmtX02_fin ⟨(intensitySpec b).toNat, hk⟩
    simp only [] at hx
    rw [hcast] at hx
    unfold netColor
    rw [hs]
    unfold Result.bind grey
    simp only []
    rw [if_neg (by omega), if_neg (by omega), hx]
  · intro hb
    rw [hi, scaleSpec_of_nonpos b 100000 200 (by decide) hb]
    rfl
  · intro hb
    rw [hi, scaleSpec_of_ge b 100000 200 (by decide) hb]
    rfl
  · intro b' hbb
    rw [hi, intensitySpec_eq b']
    have := scaleSpec_mono b b' 100000 200 (by decide) (by decide) hbb
    omega

/-- The glyph of a level between 1 and 8. -/
theorem stringOfRune_level (i : Int) (h1 : 1 ≤ i) (h8 : i ≤ 8) :
    stringOfRune (wrapInt32 (vbarMinChar + i))
      = String.singleton (Char.ofNat (0x2580 + i.toNat)) ∧
    (0x2581 ≤ 0x2580 + i.toNat ∧ 0x2580 + i.toNat ≤ 0x2588) := by
  interval_cases i <;> decide

/-- The level computed by `vbar` is the one `scale` computes with 8 intervals. -/
theorem vbar_eq_scale_bind (v max : Int) :
    vbar v max = (scale v max 8).bind fun i =>
      if i = 0 then .ok "" else .ok (stringOfRune (wrapInt32 (vbarMinChar + i))) := by
  rfl

/-- C19, as stated, fails: `max = 2^60` is positive, the product `2^60 * 8`
wraps around, `scale` gives the level `-8`, and `vbar` returns the rune U+2578,
which is none of U+2581..U+2588. -/
theorem vbar_level_out_of_range_on_overflow :
    (0 : Int) < 2 ^ 60 ∧ scale (2 ^ 60) (2 ^ 60) 8 = .ok (-8) ∧
    vbar (2 ^ 60) (2 ^ 60) = .ok (String.singleton (Char.ofNat 0x2578)) ∧
    ¬ (0x2581 ≤ 0x2578) := by
  decide

/-- C19, amended: `vbar` is `scale` with 8 intervals for all `v` and `max`; for
`max > 0` with `max * 8` not overflowing, the level `i = scale(v, max, 8)` is
`floor(clamp(v, 0, max) * 8 / max)`, lies in `[0, 8]`, and `vbar` returns the
empty string when `i = 0` and otherwise the one-rune string U+2580 + i, one of
U+2581..U+2588; each of the nine levels 0..8 is reached. -/
theorem vbar_spec (v max : Int) (hmax : 0 < max) (hno : max * 8 ≤ 2 ^ 63 - 1) :
    (vbar v max = (scale v max 8).bind fun i =>
      if i = 0 then .ok "" else .ok (stringOfRune (wrapInt32 (vbarMinChar + i)))) ∧
    ∃ i, scale v max 8 = .ok i ∧ i = scaleSpec v max 8 ∧ (0 ≤ i ∧ i ≤ 8) ∧
      vbar v max = .ok (if i = 0 then "" else String.singleton (Char.ofNat (0x2580 + i.toNat))) ∧
      (i ≠ 0 → 0x2581 ≤ 0x2580 + i.toNat ∧ 0x2580 + i.toNat ≤ 0x2588) ∧
      ∀ k : Fin 9, scale (k.val : Int) 8 8 = .ok (k.val : Int) := by
  obtain ⟨hc0, hc1⟩ := clampSpec_bounds v max (le_of_lt hmax)
  obtain ⟨h0, h8⟩ := scaleSpec_bounds v max 8 hmax (by decide)
  have hs : scale v max 8 = .ok (scaleSpec v max 8) :=
    scale_eq_scaleSpec v max 8 hmax (by decide) (by omega)
  refine ⟨vbar_eq_scale_bind v max, scaleSpec v max 8, hs, rfl, ⟨h0, h8⟩, ?_, ?_, by decide⟩
  · rw [vbar_eq_scale_bind, hs]
    unfold Result.bind
    simp only []
    by_cases hz : scaleSpec v max 8 = 0
    · rw [if_pos hz, if_pos hz]
    · rw [if_neg hz, if_neg hz, (stringOfRune_level _ (by omega) h8).1]
  · intro hz
    exact (stringOfRune_level _ (by omega) h8).2

theorem vbar_spec_witness :
    (0 : Int) < 8 ∧ (8 : Int) * 8 ≤ 2 ^ 63 - 1 ∧
    ((vbar 5 8 = (scale 5 8 8).bind fun i =>
      if i = 0 then .ok "" else .ok (stringOfRune (wrapInt32 (vbarMinChar + i)))) ∧
    ∃ i, scale 5 8 8 = .ok i ∧ i = scaleSpec 5 8 8 ∧ (0 ≤ i ∧ i ≤ 8) ∧
      vbar 5 8 = .ok (if i = 0 then "" else String.singleton (Char.ofNat (0x2580 + i.toNat))) ∧
      (i ≠ 0 → 0x2581 ≤ 0x2580 + i.toNat ∧ 0x2580 + i.toNat ≤ 0x2588) ∧
      ∀ k : Fin 9, scale (k.val : Int) 8 8 = .ok (k.val : Int)) :=
  ⟨by decide, by decide, vbar_spec 5 8 (by decide) (by decide)⟩

/-! ## Properties of the battery segment -/

/-- The segment `buildBattOutput` returns for a battery that is not disconnected. -/
theorem buildBattOutput_connected (i : BatteryInfo) (disp : String)
    (h : i.Status ≠ .Disconnected) :
    buildBattOutput i disp = some (BattSegment.mk
      ("mdi-" ++
        (if Int.tdiv i.RemainingPct 10 = 0 then
          (if i.Status = .Charging then "battery" ++ "-charging" else "battery") ++ "-outline"
        else if Int.tdiv i.RemainingPct 10 < 10 then
          (if i.Status = .Charging then "battery" ++ "-charging" else "battery") ++
            ("-" ++ fmtD (Int.tdiv i.RemainingPct 10) ++ "0")
        else (if i.Status = .Charging then "battery" ++ "-charging" else "battery")))
      disp
      (decide (i.RemainingPct ≤ 5))
      (if i.RemainingPct ≤ 5 then none else if i.RemainingPct ≤ 15 then some "bad"
        else if i.RemainingPct ≤ 25 then some "degraded" else none)) := by
  unfold buildBattOutput
  rw [if_neg h]
  simp only []
  by_cases h5 : i.RemainingPct ≤ 5
  · simp [h5]
  · by_cases h15 : i.RemainingPct ≤ 15
    · simp [h5, h15]
    · by_cases h25 : i.RemainingPct ≤ 25
      · simp [h5, h15, h25]
      · simp [h5, h15, h25]

theorem showBattPct_eq (i : BatteryInfo) :
    showBattPct i = buildBattOutput i (fmtD i.RemainingPct ++ "%") := by
  unfold showBattPct
  cases buildBattOutput i (fmtD i.RemainingPct ++ "%") <;> rfl

/-- C14: the battery builder returns no output for a Disconnected battery,
whatever the remaining percentage and the display text, and returns an output
for every Charging or Discharging snapshot; no output means Disconnected. -/
theorem showBattPct_gate (i : BatteryInfo) :
    (i.Status = .Disconnected →
      showBattPct i = none ∧ ∀ disp, buildBattOutput i disp = none) ∧
    (i.Status = .Charging ∨ i.Status = .Discharging →
      ∃ o, showBattPct i = some o ∧ buildBattOutput i (fmtD i.RemainingPct ++ "%") = some o) ∧
    (showBattPct i = none ↔ i.Status = .Disconnected) := by
  have hd : i.Status = .Disconnected → ∀ disp, buildBattOutput i disp = none := by
    intro h disp
    unfold buildBattOutput
    rw [if_pos h]
  have hc : i.Status ≠ .Disconnected → ∃ o, showBattPct i = some o ∧
      buildBattOutput i (fmtD i.RemainingPct ++ "%") = some o := by
    intro h
    rw [showBattPct_eq, buildBattOutput_connected i _ h]
    exact ⟨_, rfl, rfl⟩
  refine ⟨fun h => ⟨by rw [showBattPct_eq]; exact hd h _, hd h⟩, ?_, ?_⟩
  · intro h
    apply hc
    rcases h with h | h <;> rw [h] <;> decide
  · constructor
    · intro hn
      by_contra h
      obtain ⟨o, ho, -⟩ := hc h
      rw [ho] at hn
      cases hn
    · intro h
      rw [showBattPct_eq]
      exact hd h _

/-- C15: for every connected battery with remaining percent `p` in `[0, 100]` the
output carries exactly one of the four severities: urgent (and no colour) iff
`p ≤ 5`, the colour bad iff `5 < p ≤ 15`, the colour degraded iff `15 < p ≤ 25`,
neither colour nor urgency iff `p > 25`; 3, 10, 20 and 50 give Urgent, Bad,
Degraded and Normal. -/
theorem showBattPct_severity (i : BatteryInfo) (hs : i.Status ≠ .Disconnected)
    (h0 : 0 ≤ i.RemainingPct) (h100 : i.RemainingPct ≤ 100) :
    (∃ o, showBattPct i = some o ∧
      (o.urgent = true ∧ o.color = none ↔ i.RemainingPct ≤ 5) ∧
      (o.urgent = false ∧ o.color = some "bad" ↔ 5 < i.RemainingPct ∧ i.RemainingPct ≤ 15) ∧
      (o.urgent = false ∧ o.color = some "degraded" ↔
        15 < i.RemainingPct ∧ i.RemainingPct ≤ 25) ∧
      (o.urgent = false ∧ o.color = none ↔ 25 < i.RemainingPct)) ∧
    showBattPct ⟨.Discharging, 3⟩ = some ⟨"mdi-battery-outline", "3%", true, none⟩ ∧
    showBattPct ⟨.Discharging, 10⟩ = some ⟨"mdi-battery-10", "10%", false, some "bad"⟩ ∧
    showBattPct ⟨.Discharging, 20⟩ = some ⟨"mdi-battery-20", "20%", false, some "degraded"⟩ ∧
    showBattPct ⟨.Discharging, 50⟩ = some ⟨"mdi-battery-50", "50%", false, none⟩ := by
  refine ⟨?_, by decide, by decide, by decide, by decide⟩
  rw [showBattPct_eq, buildBattOutput_connected i _ hs]
  refine ⟨_, rfl, ?_⟩
  simp only []
  by_cases h5 : i.RemainingPct ≤ 5
  · simp [h5]
    omega
  · by_cases h15 : i.RemainingPct ≤ 15
    · simp [h5, h15]
      omega
    · by_cases h25 : i.RemainingPct ≤ 25
      · simp [h5, h15, h25]
        omega
      · simp [h5, h15, h25]
        omega

theorem showBattPct_severity_witness :
    (⟨.Charging, 12⟩ : BatteryInfo).Status ≠ .Disconnected ∧
    0 ≤ (⟨.Charging, 12⟩ : BatteryInfo).RemainingPct ∧
    (⟨.Charging, 12⟩ : BatteryInfo).RemainingPct ≤ 100 ∧
    ((∃ o, showBattPct ⟨.Charging, 12⟩ = some o ∧
      (o.urgent = true ∧ o.color = none ↔ (⟨.Charging, 12⟩ : BatteryInfo).RemainingPct ≤ 5) ∧
      (o.urgent = false ∧ o.color = some "bad" ↔
        5 < (⟨.Charging, 12⟩ : BatteryInfo).RemainingPct ∧
        (⟨.Charging, 12⟩ : BatteryInfo).RemainingPct ≤ 15) ∧
      (o.urgent = false ∧ o.color = some "degraded" ↔
        15 < (⟨.Charging, 12⟩ : BatteryInfo).RemainingPct ∧
        (⟨.Charging, 12⟩ : BatteryInfo).RemainingPct ≤ 25) ∧
      (o.urgent = false ∧ o.color = none ↔ 25 < (⟨.Charging, 12⟩ : BatteryInfo).RemainingPct)) ∧
    showBattPct ⟨.Discharging, 3⟩ = some ⟨"mdi-battery-outline", "3%", true, none⟩ ∧
    showBattPct ⟨.Discharging, 10⟩ = some ⟨"mdi-battery-10", "10%", false, some "bad"⟩ ∧
    showBattPct ⟨.Discharging, 20⟩ = some ⟨"mdi-battery-20", "20%", false, some "degraded"⟩ ∧
    showBattPct ⟨.Discharging, 50⟩ = some ⟨"mdi-battery-50", "50%", false, none⟩) :=
  ⟨by decide, by decide, by decide,
    showBattPct_severity ⟨.Charging, 12⟩ (by decide) (by decide) (by decide)⟩

/-- C18: for every connected battery with remaining percent `p` in `[0, 100]` the
icon id is `mdi-battery`, then `-charging` exactly when the status is Charging,
then the suffix: `-outline` at decile `p div 10 = 0`, `-N0` for a decile `N` in
`1..9`, and nothing otherwise, which happens only at `p = 100`. -/
theorem showBattPct_icon (i : BatteryInfo) (hs : i.Status ≠ .Disconnected)
    (h0 : 0 ≤ i.RemainingPct) (h100 : i.RemainingPct ≤ 100) :
    (∃ o, showBattPct i = some o ∧
      o.icon = "mdi-battery" ++ (if i.Status = .Charging then "-charging" else "") ++
        iconSuffixSpec i.RemainingPct) ∧
    (iconSuffixSpec i.RemainingPct = "" ↔ i.RemainingPct = 100) ∧
    (iconSuffixSpec i.RemainingPct = "-outline" ↔ i.RemainingPct / 10 = 0) := by
  obtain ⟨k, hk⟩ : ∃ k : Int, i.RemainingPct / 10 = k := ⟨_, rfl⟩
  have hk0 : 0 ≤ k := by omega
  have hk10 : k ≤ 10 := by omega
  have ht : Int.tdiv i.RemainingPct 10 = k := by
    rw [Int.tdiv_eq_ediv h0 (by decide)]
    exact hk
  have h100k : i.RemainingPct = 100 ↔ k = 10 := by omega
  rw [showBattPct_eq, buildBattOutput_connected i _ hs, ht, h100k]
  unfold iconSuffixSpec
  rw [hk]
  refine ⟨⟨_, rfl, ?_⟩, ?_, ?_⟩
  · simp only []
    cases hst : i.Status with
    | Disconnected => exact absurd hst hs
    | Charging => interval_cases k <;> decide
    | Discharging => interval_cases k <;> decide
  · interval_cases k <;> decide
  · interval_cases k <;> decide

theorem showBattPct_icon_witness :
    (⟨.Charging, 63⟩ : BatteryInfo).Status ≠ .Disconnected ∧
    0 ≤ (⟨.Charging, 63⟩ : BatteryInfo).RemainingPct ∧
    (⟨.Charging, 63⟩ : BatteryInfo).RemainingPct ≤ 100 ∧
    ((∃ o, showBattPct ⟨.Charging, 63⟩ = some o ∧
      o.icon = "mdi-battery" ++
        (if (⟨.Charging, 63⟩ : BatteryInfo).Status = .Charging then "-charging" else "") ++
        iconSuffixSpec (⟨.Charging, 63⟩ : BatteryInfo).RemainingPct) ∧
    (iconSuffixSpec (⟨.Charging, 63⟩ : BatteryInfo).RemainingPct = "" ↔
      (⟨.Charging, 63⟩ : BatteryInfo).RemainingPct = 100) ∧
    (iconSuffixSpec (⟨.Charging, 63⟩ : BatteryInfo).RemainingPct = "-outline" ↔
      (⟨.Charging, 63⟩ : BatteryInfo).RemainingPct / 10 = 0)) :=
  ⟨by decide, by decide, by decide,
    showBattPct_icon ⟨.Charging, 63⟩ (by decide) (by decide) (by decide)⟩

/-! ## Properties of the load-average segment -/

/-- The segment after the warm-up window. -/
theorem loadAvg_after_warmup (s : SysInfo) (h : ¬ s.Uptime < 10 * Minute) :
    loadAvg s = LoadSegment.mk "mdi-heart-pulse" "dim-icon" s.Loads.2.1
      (decide (s.Loads.2.1 > 8))
      (if s.Loads.2.1 > 8 then none else if s.Loads.2.1 > 4 then some "bad"
        else if s.Loads.2.1 > 1 then some "degraded" else none)
      (some startTaskManager) := by
  unfold loadAvg
  simp only []
  rw [if_neg h]
  by_cases h8 : s.Loads.2.1 > 8
  · simp [h8]
  · by_cases h4 : s.Loads.2.1 > 4
    · simp [h8, h4]
    · by_cases h1 : s.Loads.2.1 > 1
      · simp [h8, h4, h1]
      · simp [h8, h4, h1]

/-- The segment during the warm-up window. -/
theorem loadAvg_during_warmup (s : SysInfo) (h : s.Uptime < 10 * Minute) :
    loadAvg s = LoadSegment.mk "mdi-heart-pulse" "dim-icon" s.Loads.2.1 false none none := by
  unfold loadAvg
  simp only []
  rw [if_pos h]

/-- C16: the load shown and classified is the 5-minute figure `Loads[1]`; with an
uptime below 10 minutes the output has neither colour nor urgency, whatever the
load; from 10 minutes on it is urgent iff `load5 > 8`, bad iff `4 < load5 ≤ 8`,
degraded iff `1 < load5 ≤ 4` and plain otherwise.  At load 10 an uptime of
5 minutes gives the plain output and one of 15 minutes the urgent one. -/
theorem loadAvg_severity (s : SysInfo) :
    (loadAvg s).load = s.Loads.2.1 ∧
    (s.Uptime < 10 * Minute → (loadAvg s).urgent = false ∧ (loadAvg s).color = none) ∧
    (10 * Minute ≤ s.Uptime →
      ((loadAvg s).urgent = true ∧ (loadAvg s).color = none ↔ 8 < s.Loads.2.1) ∧
      ((loadAvg s).urgent = false ∧ (loadAvg s).color = some "bad" ↔
        4 < s.Loads.2.1 ∧ s.Loads.2.1 ≤ 8) ∧
      ((loadAvg s).urgent = false ∧ (loadAvg s).color = some "degraded" ↔
        1 < s.Loads.2.1 ∧ s.Loads.2.1 ≤ 4) ∧
      ((loadAvg s).urgent = false ∧ (loadAvg s).color = none ↔ s.Loads.2.1 ≤ 1)) ∧
    ((loadAvg ⟨(2, 10, 3), 5 * Minute⟩).urgent = false ∧
      (loadAvg ⟨(2, 10, 3), 5 * Minute⟩).color = none) ∧
    ((loadAvg ⟨(2, 10, 3), 15 * Minute⟩).urgent = true ∧
      (loadAvg ⟨(2, 10, 3), 15 * Minute⟩).color = none) := by
  refine ⟨?_, ?_, ?_, by decide, by decide⟩
  · by_cases h : s.Uptime < 10 * Minute
    · rw [loadAvg_during_warmup s h]
    · rw [loadAvg_after_warmup s h]
  · intro h
    rw [loadAvg_during_warmup s h]
    exact ⟨rfl, rfl⟩
  · intro h
    rw [loadAvg_after_warmup s (not_lt.mpr h)]
    simp only []
    by_cases h8 : s.Loads.2.1 > 8
    · have h4 : s.Loads.2.1 > 4 := by linarith
      have h1 : s.Loads.2.1 > 1 := by linarith
      simp [h8, h4, h1]
    · by_cases h4 : s.Loads.2.1 > 4
      · have h1 : s.Loads.2.1 > 1 := by linarith
        simp [h8, h4, h1]
        linarith
      · by_cases h1 : s.Loads.2.1 > 1
        · simp [h8, h4, h1]
          linarith
        · simp [h8, h4, h1]
          linarith

/-- C17: during the warm-up window the output carries no click action: with an
uptime of 5 minutes `OnClick` is never reached.  The task-manager action is
attached exactly when the uptime is at least 10 minutes. -/
theorem loadAvg_click_only_after_warmup :
    (loadAvg ⟨(2, 10, 3), 5 * Minute⟩).onClick = none ∧
    (loadAvg ⟨(2, 10, 3), 15 * Minute⟩).onClick = some startTaskManager ∧
    (∀ s : SysInfo, (loadAvg s).onClick = some startTaskManager ↔ 10 * Minute ≤ s.Uptime) ∧
    (∀ s : SysInfo, (loadAvg s).onClick = none ↔ s.Uptime < 10 * Minute) := by
  refine ⟨by decide, by decide, fun s => ?_, fun s => ?_⟩
  · by_cases h : s.Uptime < 10 * Minute
    · rw [loadAvg_during_warmup s h]
      simp [h]
    · rw [loadAvg_after_warmup s h]
      simp [not_lt.mp h]
  · by_cases h : s.Uptime < 10 * Minute
    · rw [loadAvg_during_warmup s h]
      simp [h]
    · rw [loadAvg_after_warmup s h]
      simp [h]

/-! ## Pairs that already fit -/

theorem utf8Size_of_ascii (c : Char) (h : c.toNat < 128) : c.utf8Size = 1 := by
  have hv : c.val.toNat < 128 := h
  unfold Char.utf8Size
  simp only []
  rw [if_pos]
  show c.val.toNat ≤ 127
  omega

theorem utf8Len_of_ascii (cs : List Char) (h : ∀ c ∈ cs, c.toNat < 128) :
    String.utf8Len cs = cs.length := by
  induction cs with
  | nil => rfl
  | cons c cs ih =>
    rw [String.utf8Len_cons, List.length_cons, utf8Size_of_ascii c (h c (List.mem_cons_self c cs)),
      ih (fun d hd => h d (List.mem_cons_of_mem c hd))]

/-- On ASCII text the byte length and the rune count agree. -/
theorem len_of_isASCII (s : String) (h : isASCII s = true) : len s = runeLen s := by
  unfold isASCII at h
  rw [List.all_eq_true] at h
  unfold len runeLen runes
  rw [String.utf8ByteSize]
  have := utf8Len_of_ascii s.data (fun c hc => of_decide_eq_true (h c hc))
  exact_mod_cast this

theorem truncate_fits (s : String) (n : Int) (h : runeLen s ≤ n) : truncate s n = .ok s := by
  unfold truncate
  rw [if_pos h]

/-- The first truncation of an ASCII artist of more than 20 runes: 19 runes and
the ellipsis, 22 bytes in all. -/
theorem truncate_20_of_long_ascii (s : String) (ha : isASCII s = true) (h : 20 < runeLen s) :
    ∃ r, truncate s 20 = .ok r ∧ len r = 22 := by
  rw [truncate_of_pos s 20 (by decide), if_neg (by omega)]
  refine ⟨_, rfl, ?_⟩
  unfold isASCII at ha
  rw [List.all_eq_true] at ha
  have hlen : ((runes s).take 19).length = 19 := by
    unfold runeLen at h
    rw [List.length_take]
    omega
  have htake := utf8Len_of_ascii ((runes s).take 19)
    (fun c hc => of_decide_eq_true (ha c (List.mem_of_mem_take hc)))
  have he : String.utf8Len ellipsis.data = 3 := by decide
  unfold len
  have hsz : (String.mk ((runes s).take 19) ++ ellipsis).utf8ByteSize
      = String.utf8Len ((runes s).take 19) + String.utf8Len ellipsis.data := by
    rw [String.utf8ByteSize, String.data_append]
    exact String.utf8Len_append _ _
  have h19 : ((20 : Int) - 1).toNat = 19 := by decide
  rw [h19, hsz, htake, hlen, he]
  rfl

/-- The output of `mediaFormatFunc` once the three `truncate` calls are known. -/
theorem mediaFormatFunc_of_truncates (m : Info) (a1 t a2 : String)
    (hs : ¬ (m.PlaybackStatus = .Stopped ∨ m.PlaybackStatus = .Disconnected))
    (h1 : truncate m.Artist 20 = .ok a1) (h2 : truncate m.Title (40 - len a1) = .ok t)
    (h3 : (if len t < 20 then truncate m.Artist (40 - len t) else .ok a1) = .ok a2) :
    ∃ o, mediaFormatFunc m = .ok (some o) ∧ o.artist = a2 ∧ o.title = t := by
  unfold mediaFormatFunc
  rw [if_neg hs, h1]
  unfold Result.bind
  simp only []
  rw [h2]
  simp only []
  rw [h3]
  exact ⟨_, rfl, rfl, rfl⟩

/-- An ASCII pair of at most 40 characters is displayed unchanged, unless the
artist has 21 characters and the title 19. -/
theorem mediaFormatFunc_unchanged (m : Info)
    (hs : m.PlaybackStatus = .Playing ∨ m.PlaybackStatus = .Paused)
    (ha : isASCII m.Artist = true) (ht : isASCII m.Title = true)
    (hsum : runeLen m.Artist + runeLen m.Title ≤ 40)
    (hne : ¬ (runeLen m.Artist = 21 ∧ runeLen m.Title = 19)) :
    ∃ o, mediaFormatFunc m = .ok (some o) ∧ o.artist = m.Artist ∧ o.title = m.Title := by
  have hs' : ¬ (m.PlaybackStatus = .Stopped ∨ m.PlaybackStatus = .Disconnected) := by
    rcases hs with h | h <;> rw [h] <;> decide
  have hla := len_of_isASCII m.Artist ha
  have hlt := len_of_isASCII m.Title ht
  have ha0 : 0 ≤ runeLen m.Artist := by
    unfold runeLen
    omega
  have ht0 : 0 ≤ runeLen m.Title := by
    unfold runeLen
    omega
  by_cases h20 : runeLen m.Artist ≤ 20
  · apply mediaFormatFunc_of_truncates m m.Artist m.Title m.Artist hs'
      (truncate_fits _ _ h20) (truncate_fits _ _ (by omega))
    by_cases hl : len m.Title < 20
    · rw [if_pos hl]
      exact truncate_fits _ _ (by omega)
    · rw [if_neg hl]
  · obtain ⟨a1, h1, hl1⟩ := truncate_20_of_long_ascii m.Artist ha (by omega)
    apply mediaFormatFunc_of_truncates m a1 m.Title m.Artist hs' h1
      (truncate_fits _ _ (by omega))
    rw [if_pos (by omega)]
    exact truncate_fits _ _ (by omega)

/-- C20: an ASCII pair whose lengths sum to 40 is shortened on both sides when
the artist has 21 characters and the title 19: the first pass cuts the artist to
19 characters and the 3-byte ellipsis (22 bytes), the title budget `40 - 22` is
18, and the shortened title has 20 bytes, so the artist is not computed again.
Every other ASCII pair of at most 40 characters is displayed unchanged. -/
theorem mediaFormatFunc_fitting_pair_shortened :
    isASCII "ABCDEFGHIJKLMNOPQRSTU" = true ∧ isASCII "abcdefghijklmnopqrs" = true ∧
    runeLen "ABCDEFGHIJKLMNOPQRSTU" + runeLen "abcdefghijklmnopqrs" = 40 ∧
    mediaFormatFunc ⟨.Paused, "ABCDEFGHIJKLMNOPQRSTU", "abcdefghijklmnopqrs", 0, 0⟩
      = .ok (some ⟨"fa-music", "#f70", none, "abcdefghijklmnopq⋯", " - ",
          "ABCDEFGHIJKLMNOPQRS⋯"⟩) ∧
    (∀ m : Info, (m.PlaybackStatus = .Playing ∨ m.PlaybackStatus = .Paused) →
      isASCII m.Artist = true → isASCII m.Title = true →
      runeLen m.Artist + runeLen m.Title ≤ 40 →
      ¬ (runeLen m.Artist = 21 ∧ runeLen m.Title = 19) →
      ∃ o, mediaFormatFunc m = .ok (some o) ∧ o.artist = m.Artist ∧ o.title = m.Title) ∧
    (∀ m : Info, (m.PlaybackStatus = .Playing ∨ m.PlaybackStatus = .Paused) →
      isASCII m.Artist = true → isASCII m.Title = true →
      runeLen m.Artist = 21 → runeLen m.Title = 19 →
      ∃ o, mediaFormatFunc m = .ok (some o) ∧ o.artist ≠ m.Artist ∧ o.title ≠ m.Title) := by
  refine ⟨by decide, by decide, by decide, by decide, mediaFormatFunc_unchanged, ?_⟩
  intro m hs ha ht h21 h19
  have hs' : ¬ (m.PlaybackStatus = .Stopped ∨ m.PlaybackStatus = .Disconnected) := by
    rcases hs with h | h <;> rw [h] <;> decide
  obtain ⟨a1, h1, hl1⟩ := truncate_20_of_long_ascii m.Artist ha (by omega)
  have hr1 := truncate_ok_runeLen _ _ _ h1
  have h2 : truncate m.Title (40 - len a1)
      = .ok (String.mk ((runes m.Title).take 17) ++ ellipsis) := by
    rw [hl1, truncate_of_pos _ _ (by decide), if_neg (by omega)]
    rfl
  have hlen2 : 19 < len (String.mk ((runes m.Title).take 17) ++ ellipsis) := by
    have hl : ((runes m.Title).take 17).length = 17 := by
      unfold runeLen at h19
      rw [List.length_take]
      omega
    have hge := length_le_utf8ByteSize_go ((runes m.Title).take 17)
    have he : String.utf8Len ellipsis.data = 3 := by decide
    have hsz : (String.mk ((runes m.Title).take 17) ++ ellipsis).utf8ByteSize
        = String.utf8Len ((runes m.Title).take 17) + String.utf8Len ellipsis.data := by
      rw [String.utf8ByteSize, String.data_append]
      exact String.utf8Len_append _ _
    unfold len
    rw [hsz, he]
    rw [String.utf8ByteSize.go_eq] at hge
    omega
  obtain ⟨o, ho, hoa, hot⟩ := mediaFormatFunc_of_truncates m a1 _ a1 hs' h1 h2
    (by rw [if_neg (by omega)])
  refine ⟨o, ho, ?_, ?_⟩
  · rw [hoa]
    intro heq
    rw [heq] at hr1
    omega
  · rw [hot]
    intro heq
    have hrl := congrArg runeLen heq
    unfold runeLen at hrl h19
    rw [runes_mk_append, runes_ellipsis] at hrl
    simp only [List.length_append, List.length_take, List.length_singleton] at hrl
    omega

/-! ## Checks of the embedding on concrete inputs -/

example : formatMediaTime (75 * Second) = "1:15" := by decide
example : formatMediaTime (3725 * Second + 999999999) = "1:02:05" := by decide
example : hms (-5 * Second) = (0, 0, -5) := by decide
example : formatMediaTime (-5 * Second) = "0:-5" := by decide
example : formatMediaTime (-3600 * Second) = "0:00" := by decide
example : mediaFormatFunc ⟨.Stopped, "a", "b", 0, 0⟩ = .ok none := by decide
example : mediaFormatFunc ⟨.Playing, "A Very Long Artist Name Indeed", "Short", 75 * Second, 5 * Second⟩
    = .ok (some ⟨"fa-music", "#f70", some "0:05/1:15", "Short", " - ",
        "A Very Long Artist Name Indeed"⟩) := by decide
example : mediaFormatFunc ⟨.Paused, "ああああああああああああああ", "Short", 0, 0⟩
    = .fail .sliceBounds := by decide
example : scale 0 100000 200 = .ok 0 := by decide
example : scale 200000 100000 200 = .ok 200 := by decide
example : scale 5 0 200 = .fail .divideByZero := by decide
example : scale (2 ^ 62) (2 ^ 62) 3 = .ok (-1) := by decide
set_option maxRecDepth 100000 in
example : netColor 50000 100000 = .ok "#9b9b9b" := by decide
example : grey 7 = "#070707" := by decide
example : vbar 4 8 = .ok "▄" := by decide
example : vbar 0 8 = .ok "" := by decide
example : vbar (2 ^ 60) (2 ^ 60) = .ok "╸" := by decide
example : showBattPct ⟨.Charging, 63⟩ = some ⟨"mdi-battery-charging-60", "63%", false, none⟩ := by
  decide
example : showBattPct ⟨.Discharging, 3⟩ = some ⟨"mdi-battery-outline", "3%", true, none⟩ := by
  decide
example : showBattPct ⟨.Discharging, 100⟩ = some ⟨"mdi-battery", "100%", false, none⟩ := by
  decide
example : showBattPct ⟨.Disconnected, 50⟩ = none := by decide
example : (loadAvg ⟨(1, 10, 3), 5 * Minute⟩).onClick = none := by decide
example : (loadAvg ⟨(1, 10, 3), 15 * Minute⟩).urgent = true := by decide

/-! The rounding on known doubles: 0.1 is `3602879701896397 / 2^55`, 1/3 is
`6004799503160661 / 2^54`, `2^53 + 1` is a tie that goes to the even `2^53`,
`2^53 + 3` goes up to `2^53 + 4`, and half of the smallest subnormal goes to 0. -/

example : roundToF64 1 10 = 3602879701896397 * 2 ^ (1074 - 55) := by decide
example : roundToF64 1 3 = 6004799503160661 * 2 ^ (1074 - 54) := by decide
example : roundToF64 (2 ^ 53 + 1) 1 = 2 ^ 53 * f64Scale := by decide
example : roundToF64 (2 ^ 53 + 3) 1 = (2 ^ 53 + 4) * f64Scale := by decide
example : roundToF64 1 (2 ^ 1075) = 0 := by decide
example : roundToF64 3 (2 ^ 1076) = 1 := by decide
example : intHours (4097 * Hour - 2) = 4096 := by decide
example : intHours (4097 * Hour - 1) = 4097 := by decide
example : intHours (-(4097 * Hour - 1)) = -4097 := by decide
example : hms (-(4097 * Hour - 1)) = (-4097, -59, -59) := by decide
example : intSeconds (33554432 * Second - 1) = 33554432 := by decide

end Barista
